import Mathlib

/-!
Shallow embedding of the ingredient-parsing and consolidation core of
`src/RecipeConsolidator/recipe-consolidator.js`, together with proofs of the
behavioural claims about it.  JS numbers are modelled by `ℚ`, JS strings by
`String`/`List Char`, JS objects (used as ordered string-keyed maps) by
association lists that preserve insertion order, and JS `Set` by duplicate-free
lists that preserve insertion order.
-/

unseal Rat.mul Rat.add Rat.inv Rat.sub Rat.ofScientific

set_option maxRecDepth 100000

namespace RecipeConsolidator

/-- The JS `\s` character class, restricted to the ASCII whitespace characters
that can occur in this code's inputs. -/
def isWs (c : Char) : Bool :=
  c == ' ' || c == '\t' || c == '\n' || c == '\r' || c == '\x0b' || c == '\x0c'

/-- JS `String.prototype.trim`. -/
def trimChars (cs : List Char) : List Char :=
  ((cs.dropWhile isWs).reverse.dropWhile isWs).reverse

/-- Numeric value of a run of decimal digits (`parseFloat` on a digit string). -/
def digitsToNat (ds : List Char) : Nat :=
  ds.foldl (fun acc c => acc * 10 + (c.toNat - '0'.toNat)) 0

/-- The `fractions` lookup table of `unicodeFractionToDecimal`
(source lines 930-934). -/
def unicodeFractionTable : List (Char × ℚ) :=
  [('½', 1/2), ('⅓', 1/3), ('⅔', 2/3), ('¼', 1/4), ('¾', 3/4), ('⅕', 1/5),
   ('⅖', 2/5), ('⅗', 3/5), ('⅘', 4/5), ('⅙', 1/6), ('⅚', 5/6), ('⅛', 1/8),
   ('⅜', 3/8), ('⅝', 5/8), ('⅞', 7/8)]

/-- `unicodeFractionToDecimal` (source lines 929-936): `null` becomes `none`. -/
def unicodeFractionToDecimal (c : Char) : Option ℚ :=
  (unicodeFractionTable.find? (fun p => p.1 == c)).map Prod.snd

/-- `List.span`, restated with plain structural recursion so that proofs can
unfold it cleanly. -/
def spanP (p : Char → Bool) : List Char → (List Char × List Char)
  | [] => ([], [])
  | c :: cs =>
    if p c then
      let (t, d) := spanP p cs
      (c :: t, d)
    else ([], c :: cs)

/-- Result of `extractQuantity`: the parsed quantity and the number of
characters consumed from the front of the (trimmed) input. -/
structure QuantityResult where
  quantity : ℚ
  consumed : Nat
  deriving Repr, DecidableEq

/-- Range pattern `^(\d+)\s*-\s*(\d+)(?:\s|$|[^\d])` with the `max >= min`
check; returns the upper bound (source lines 945-957).  `consumed` is
`match[0].trim().length`: the one-character context is kept unless it is
whitespace (or absent at end of input). -/
def tryRange (cs : List Char) : Option QuantityResult :=
  let (d1, r1) := spanP Char.isDigit cs
  if d1.isEmpty then none else
  let (w1, r2) := spanP isWs r1
  match r2 with
  | [] => none
  | c :: r3 =>
    if c = '-' then
      let (w2, r4) := spanP isWs r3
      let (d2, r5) := spanP Char.isDigit r4
      if d2.isEmpty then none else
      if digitsToNat d2 ≥ digitsToNat d1 then
        let ctx := match r5 with
          | [] => 0
          | c :: _ => if isWs c then 0 else 1
        some ⟨(digitsToNat d2 : ℚ),
              d1.length + w1.length + 1 + w2.length + d2.length + ctx⟩
      else none
    else none

/-- Mixed number with a Unicode fraction and no space,
`^(\d+)([½⅓⅔¼¾⅕⅖⅗⅘⅙⅚⅛⅜⅝⅞])` (source lines 961-974). -/
def tryMixedUnicode (cs : List Char) : Option QuantityResult :=
  let (d, r) := spanP Char.isDigit cs
  if d.isEmpty then none else
  match r with
  | g :: _ =>
    (unicodeFractionToDecimal g).map
      (fun f => ⟨(digitsToNat d : ℚ) + f, d.length + 1⟩)
  | [] => none

/-- Mixed number with whitespace before the Unicode fraction,
`^(\d+)\s+([½⅓⅔¼¾⅕⅖⅗⅘⅙⅚⅛⅜⅝⅞])` (source lines 977-987).  Here `consumed` is
`match[0].length` with no trim. -/
def tryMixedUnicodeSpace (cs : List Char) : Option QuantityResult :=
  let (d, r) := spanP Char.isDigit cs
  if d.isEmpty then none else
  let (w, r2) := spanP isWs r
  if w.isEmpty then none else
  match r2 with
  | g :: _ =>
    (unicodeFractionToDecimal g).map
      (fun f => ⟨(digitsToNat d : ℚ) + f, d.length + w.length + 1⟩)
  | [] => none

/-- Standalone Unicode fraction `^([glyphs])(?:\s|$|[^\d])`
(source lines 990-1000). -/
def tryStandaloneUnicode (cs : List Char) : Option QuantityResult :=
  match cs with
  | [] => none
  | g :: r =>
    match unicodeFractionToDecimal g with
    | none => none
    | some f =>
      match r with
      | [] => some ⟨f, 1⟩
      | c :: _ =>
        if c.isDigit then none
        else some ⟨f, if isWs c then 1 else 2⟩

/-- Mixed number with an ASCII fraction,
`^(\d+)\s+(\d+)\/(\d+)(?:\s|$|[^\d])` with the proper-fraction validation
(source lines 1005-1016). -/
def tryMixedAscii (cs : List Char) : Option QuantityResult :=
  let (d1, r1) := spanP Char.isDigit cs
  if d1.isEmpty then none else
  let (w, r2) := spanP isWs r1
  if w.isEmpty then none else
  let (d2, r3) := spanP Char.isDigit r2
  if d2.isEmpty then none else
  match r3 with
  | [] => none
  | c :: r4 =>
    if c = '/' then
      let (d3, r5) := spanP Char.isDigit r4
      if d3.isEmpty then none else
      let num := digitsToNat d2
      let den := digitsToNat d3
      if den ≠ 0 ∧ num < den then
        let ctx := match r5 with
          | [] => 0
          | c :: _ => if isWs c then 0 else 1
        some ⟨(digitsToNat d1 : ℚ) + (num : ℚ) / (den : ℚ),
              d1.length + w.length + d2.length + 1 + d3.length + ctx⟩
      else none
    else none

/-- Simple ASCII fraction `^(\d+)\/(\d+)(?:\s|$|[^\d])` with the
proper-fraction validation (source lines 1019-1029). -/
def tryFraction (cs : List Char) : Option QuantityResult :=
  let (d1, r1) := spanP Char.isDigit cs
  if d1.isEmpty then none else
  match r1 with
  | [] => none
  | c :: r2 =>
    if c = '/' then
      let (d2, r3) := spanP Char.isDigit r2
      if d2.isEmpty then none else
      let num := digitsToNat d1
      let den := digitsToNat d2
      if den ≠ 0 ∧ num < den then
        let ctx := match r3 with
          | [] => 0
          | c :: _ => if isWs c then 0 else 1
        some ⟨(num : ℚ) / (den : ℚ), d1.length + 1 + d2.length + ctx⟩
      else none
    else none

/-- Decimal number `^(\d+\.\d+)(?:\s|$|[^\d])` (source lines 1032-1041). -/
def tryDecimal (cs : List Char) : Option QuantityResult :=
  let (d1, r1) := spanP Char.isDigit cs
  if d1.isEmpty then none else
  match r1 with
  | [] => none
  | c :: r2 =>
    if c = '.' then
      let (d2, r3) := spanP Char.isDigit r2
      if d2.isEmpty then none else
      let ctx := match r3 with
        | [] => 0
        | c :: _ => if isWs c then 0 else 1
      some ⟨(digitsToNat d1 : ℚ) + (digitsToNat d2 : ℚ) / ((10 : ℚ) ^ d2.length),
            d1.length + 1 + d2.length + ctx⟩
    else none

/-- Does the text begin with `\d+\/\d+` or a Unicode fraction glyph
(the regex `^(\d+\/\d+|[glyphs])` of source line 1058)? -/
def startsWithFraction (cs : List Char) : Bool :=
  match cs with
  | [] => false
  | c :: _ =>
    if (unicodeFractionToDecimal c).isSome then true
    else
      let (d1, r1) := spanP Char.isDigit cs
      if d1.isEmpty then false
      else match r1 with
        | '/' :: r2 => !((spanP Char.isDigit r2).1.isEmpty)
        | _ => false

/-- Plain whole number `^(\d+)`, rejected when a fraction follows
(source lines 1045-1064). -/
def tryWhole (cs : List Char) : Option QuantityResult :=
  let (d, r) := spanP Char.isDigit cs
  if d.isEmpty then none else
  match r with
  | [] => some ⟨(digitsToNat d : ℚ), d.length⟩
  | c :: _ =>
    if !(isWs c) && (unicodeFractionToDecimal c).isSome then none
    else if startsWithFraction (r.dropWhile isWs) then none
    else some ⟨(digitsToNat d : ℚ), d.length⟩

/-- `extractQuantity` on an already-trimmed character list: the eight patterns
are tried in the source's order (source lines 942-1067). -/
def extractQuantityCore (cs : List Char) : Option QuantityResult :=
  (tryRange cs).orElse fun _ =>
  (tryMixedUnicode cs).orElse fun _ =>
  (tryMixedUnicodeSpace cs).orElse fun _ =>
  (tryStandaloneUnicode cs).orElse fun _ =>
  (tryMixedAscii cs).orElse fun _ =>
  (tryFraction cs).orElse fun _ =>
  (tryDecimal cs).orElse fun _ =>
  tryWhole cs

/-- `extractQuantity` (source lines 942-1067): trims its input first. -/
def extractQuantity (text : String) : Option QuantityResult :=
  extractQuantityCore (trimChars text.data)

/-- `UNIT_CONVERSIONS.volume` (source lines 534-585), in insertion order. -/
def volumeUnits : List (String × ℚ) :=
  [("cup", 240), ("cups", 240), ("c", 240), ("c.", 240), ("cup.", 240),
   ("tablespoon", 15), ("tablespoons", 15), ("tbsp", 15), ("tbsp.", 15),
   ("tbs", 15), ("tbs.", 15), ("T", 15), ("T.", 15), ("TB", 15), ("TBSP", 15),
   ("teaspoon", 5), ("teaspoons", 5), ("tsp", 5), ("tsp.", 5), ("t", 5),
   ("t.", 5), ("TSP", 5),
   ("fluid ounce", 30), ("fluid ounces", 30), ("fl oz", 30), ("fl. oz.", 30),
   ("fl oz.", 30), ("fl", 30),
   ("pint", 480), ("pints", 480), ("pt", 480), ("pt.", 480),
   ("quart", 960), ("quarts", 960), ("qt", 960), ("qt.", 960),
   ("gallon", 3840), ("gallons", 3840), ("gal", 3840), ("gal.", 3840),
   ("milliliter", 1), ("milliliters", 1), ("ml", 1), ("ml.", 1),
   ("liter", 1000), ("liters", 1000), ("l", 1000), ("l.", 1000),
   ("L", 1000), ("L.", 1000)]

/-- `UNIT_CONVERSIONS.weight` (source lines 587-607), in insertion order. -/
def weightUnits : List (String × ℚ) :=
  [("ounce", 28.35), ("ounces", 28.35), ("oz", 28.35), ("oz.", 28.35),
   ("pound", 453.6), ("pounds", 453.6), ("lb", 453.6), ("lb.", 453.6),
   ("lbs", 453.6), ("lbs.", 453.6), ("pound.", 453.6),
   ("gram", 1), ("grams", 1), ("g", 1), ("g.", 1),
   ("kilogram", 1000), ("kilograms", 1000), ("kg", 1000), ("kg.", 1000)]

/-- Stable insertion step for sorting by descending key length. -/
def insertByLen (x : String × ℚ) : List (String × ℚ) → List (String × ℚ)
  | [] => [x]
  | y :: ys => if y.1.length < x.1.length then x :: y :: ys else y :: insertByLen x ys

/-- The `sortUnits` helper of source lines 1156-1158: a stable sort of the
table entries by descending key length (`Object.entries` preserves insertion
order and JS `Array.prototype.sort` is stable). -/
def sortUnits (units : List (String × ℚ)) : List (String × ℚ) :=
  units.foldr insertByLen []

def sortedVolumeUnits : List (String × ℚ) := sortUnits volumeUnits

def sortedWeightUnits : List (String × ℚ) := sortUnits weightUnits

/-- Case-insensitive prefix strip (the regexes use the `i` flag); returns the
text after the prefix. -/
def stripPrefixCI : List Char → List Char → Option (List Char)
  | [], rest => some rest
  | _ :: _, [] => none
  | p :: ps, c :: cs => if p.toLower == c.toLower then stripPrefixCI ps cs else none

/-- The tail `(?:\s+|,|$|\.(?:\s|$))` of the unit-matching regex
(source lines 1090, 1117, 1280, 1324); returns the text after `match[0]`. -/
def matchUnitTail : List Char → Option (List Char)
  | [] => some []
  | c :: cs =>
    if isWs c then some (cs.dropWhile isWs)
    else if c == ',' then some cs
    else if c == '.' then
      match cs with
      | [] => some []
      | c2 :: cs2 => if isWs c2 then some cs2 else none
    else none

/-- Match `^unit(?:\s+|,|$|\.(?:\s|$))` case-insensitively against `rest`. -/
def matchUnit (unitName : String) (rest : List Char) : Option (List Char) :=
  (stripPrefixCI unitName.data rest).bind matchUnitTail

def isPunctWs (c : Char) : Bool := c == ',' || c == '.' || isWs c

/-- `rest.substring(matchedLength).trim()` followed by
`replace(/^[,.\s]+/, '')` (source lines 1094-1096 etc.). -/
def cleanAfterUnit (cs : List Char) : List Char :=
  (trimChars cs).dropWhile isPunctWs

structure UnitMatch where
  unit : String
  remaining : List Char
  deriving Repr, DecidableEq

/-- The per-table matching loop of `parseQuantityUnitPair` and
`parseIngredientLine` (source lines 1086-1110, 1276-1316): the first unit
(longest first) whose regex matches and whose cleaned remaining text does not
start with a digit. -/
def findUnit : List (String × ℚ) → List Char → Option UnitMatch
  | [], _ => none
  | (u, _) :: us, rest =>
    match matchUnit u rest with
    | some after =>
      let remaining := cleanAfterUnit after
      let startsDigit := match remaining with
        | c :: _ => c.isDigit
        | [] => false
      if startsDigit then findUnit us rest else some ⟨u, remaining⟩
    | none => findUnit us rest

inductive UnitType where
  | volume | weight | count
  deriving Repr, DecidableEq

structure QuantityUnitPair where
  quantity : ℚ
  unit : String
  unitType : UnitType
  remaining : List Char
  deriving Repr, DecidableEq

/-- `parseQuantityUnitPair` (source lines 1072-1140). -/
def parseQuantityUnitPair (text : List Char) : Option QuantityUnitPair :=
  let t := trimChars text
  if t.isEmpty then none else
  match extractQuantityCore t with
  | none => none
  | some qr =>
    let rest := trimChars (t.drop qr.consumed)
    if rest.isEmpty then none else
    match findUnit sortedVolumeUnits rest with
    | some m => some ⟨qr.quantity, m.unit, .volume, m.remaining⟩
    | none =>
      match findUnit sortedWeightUnits rest with
      | some m => some ⟨qr.quantity, m.unit, .weight, m.remaining⟩
      | none => none

/-- `INGREDIENT_PREP_WORDS` (source lines 624-629). -/
def prepWords : List String :=
  ["fresh", "dried", "ground", "chopped", "diced", "sliced", "minced",
   "grated", "crushed", "peeled", "shredded", "finely", "roughly",
   "coarsely", "halved", "quartered", "ripe", "large", "small", "medium",
   "optional", "to taste"]

/-- `INGREDIENT_ALIASES` (source lines 611-621). -/
def ingredientAliases : List (String × List String) :=
  [("flour", ["all-purpose flour", "ap flour", "plain flour", "white flour"]),
   ("onion", ["yellow onion", "white onion", "onions"]),
   ("garlic", ["garlic cloves", "garlic clove"]),
   ("salt", ["table salt", "kosher salt"]),
   ("sugar", ["white sugar", "granulated sugar"]),
   ("butter", ["unsalted butter", "salted butter"]),
   ("oil", ["vegetable oil", "cooking oil", "canola oil"]),
   ("pepper", ["black pepper", "ground pepper"]),
   ("milk", ["whole milk", "2% milk", "skim milk"])]

/-- Skip to just after the next `)` (the lazy `.*?\)` part of `/\(.*?\)/`). -/
def skipPastClose : List Char → Option (List Char)
  | [] => none
  | ')' :: rest => some rest
  | _ :: rest => skipPastClose rest

/-- Fuelled worker for `removeParens`. -/
def removeParensGo : Nat → List Char → List Char
  | 0, cs => cs
  | _ + 1, [] => []
  | fuel + 1, '(' :: rest =>
    match skipPastClose rest with
    | some after => removeParensGo fuel after
    | none => '(' :: removeParensGo fuel rest
  | fuel + 1, c :: rest => c :: removeParensGo fuel rest

/-- JS `replace(/\(.*?\)/g, '')`: remove every substring from a `(` to the
nearest following `)` (source lines 723, 818). -/
def removeParens (cs : List Char) : List Char :=
  removeParensGo cs.length cs

/-- JS `split(',')[0]` (source line 727). -/
def beforeComma (cs : List Char) : List Char :=
  cs.takeWhile (fun c => c != ',')

/-- The `^(?:words)\s+` half of `prepRegex` (source lines 729-733): strip one
leading prep word followed by whitespace, alternatives tried in list order. -/
def stripLeadingPrep (cs : List Char) : Option (List Char) :=
  prepWords.findSome? (fun w =>
    match stripPrefixCI w.data cs with
    | some rest =>
      match rest with
      | c :: cs2 => if isWs c then some (cs2.dropWhile isWs) else none
      | [] => none
    | none => none)

/-- The `\s+(?:words)$` half of `prepRegex`: strip one trailing prep word and
the whitespace run before it. -/
def stripTrailingPrep (cs : List Char) : Option (List Char) :=
  let rcs := cs.reverse
  prepWords.findSome? (fun w =>
    match stripPrefixCI w.data.reverse rcs with
    | some rpre =>
      match rpre with
      | c :: _ => if isWs c then some ((rpre.dropWhile isWs).reverse) else none
      | [] => none
    | none => none)

/-- The single `replace(prepRegex, '')` of source line 733 followed by
`.trim()`: at most one leading and one trailing prep word are removed
(the regex has no iteration). -/
def applyPrepRegex (cs : List Char) : List Char :=
  let afterLead := (stripLeadingPrep cs).getD cs
  let afterTrail := (stripTrailingPrep afterLead).getD afterLead
  trimChars afterTrail

/-- Fuel-free worker for `collapseWs`, tracking whether the previous
character was whitespace. -/
def collapseWsGo : Bool → List Char → List Char
  | _, [] => []
  | prevWs, c :: cs =>
    if isWs c then
      if prevWs then collapseWsGo true cs
      else ' ' :: collapseWsGo true cs
    else c :: collapseWsGo false cs

/-- JS `replace(/\s+/g, ' ')` (source line 736). -/
def collapseWs (cs : List Char) : List Char :=
  collapseWsGo false cs

/-- Case-insensitive suffix test. -/
def isSuffixCIB (w : String) (cs : List Char) : Bool :=
  (stripPrefixCI w.data.reverse cs.reverse).isSome

/-- The plural-to-singular step of `normalizeIngredientName`
(source lines 738-745): under a case-sensitive `endsWith('es')` test, only the
`/(tomatoes|potatoes)$/i` matches lose their final `es`; otherwise a word
ending in `s` loses that `s`. -/
def pluralStep (cs : List Char) : List Char :=
  if "es".data.isSuffixOf cs then
    if isSuffixCIB "tomatoes" cs || isSuffixCIB "potatoes" cs then
      cs.dropLast.dropLast
    else cs
  else if "s".data.isSuffixOf cs then cs.dropLast
  else cs

/-- JS `String.prototype.includes`: substring test. -/
def includesSub : List Char → List Char → Bool
  | hay, needle =>
    match hay with
    | [] => needle.isEmpty
    | _ :: rest => needle.isPrefixOf hay || includesSub rest needle

/-- The alias-table scan of source lines 748-753: a key matches if the
normalized text equals it, or some alias contains / is contained in the
normalized text (JS `includes`). -/
def aliasLookup (normalized : List Char) : List Char :=
  match ingredientAliases.find? (fun p =>
    normalized == p.1.data ||
    p.2.any (fun a => includesSub normalized a.data || includesSub a.data normalized)) with
  | some p => p.1.data
  | none => normalized

/-- `normalizeIngredientName` (source lines 716-755). -/
def normalizeIngredientNameL (name : List Char) : List Char :=
  if name.isEmpty then [] else
  let n := trimChars (name.map Char.toLower)
  let n := trimChars (removeParens n)
  let n := trimChars (beforeComma n)
  let n := applyPrepRegex n
  let n := trimChars (collapseWs n)
  let n := pluralStep n
  aliasLookup n

def normalizeIngredientName (name : String) : String :=
  ⟨normalizeIngredientNameL name.data⟩

/-- JS `indexOf` for substrings (`-1` becomes `none`). -/
def indexOfSubGo (needle : List Char) : List Char → Nat → Option Nat
  | [], i => if needle.isEmpty then some i else none
  | c :: cs, i =>
    if needle.isPrefixOf (c :: cs) then some i
    else indexOfSubGo needle cs (i + 1)

def indexOfSub (hay needle : List Char) : Option Nat :=
  indexOfSubGo needle hay 0

/-- The `[,.-\s]` edge-punctuation class of source line 776. -/
def isEdgePunct (c : Char) : Bool := c == ',' || c == '.' || c == '-' || isWs c

/-- JS `split(sep)` for a one-character separator. -/
def splitOnCharGo (sep : Char) : List Char → List Char → List (List Char)
  | [], acc => [acc.reverse]
  | c :: cs, acc =>
    if c == sep then acc.reverse :: splitOnCharGo sep cs []
    else splitOnCharGo sep cs (c :: acc)

def splitOnChar (sep : Char) (cs : List Char) : List (List Char) :=
  splitOnCharGo sep cs []

/-- JS `array.join(sep)` for a one-character separator. -/
def joinChar (sep : Char) : List (List Char) → List Char
  | [] => []
  | [x] => x
  | x :: y :: xs => x ++ sep :: joinChar sep (y :: xs)

/-- Is the text exactly a plural fragment (`/^(s|es)$/i`)? -/
def isPluralFrag (cs : List Char) : Bool :=
  let l := cs.map Char.toLower
  l == "s".data || l == "es".data

/-- The em-dash preference step of `inferIngredientNotes`
(source lines 784-789). -/
def dashPrefer (combined : List Char) : List Char :=
  if combined.contains '—' then
    let parts := ((splitOnChar '—' combined).map trimChars).filter (fun p => !p.isEmpty)
    let filtered := parts.filter (fun p => !isPluralFrag p)
    trimChars (match filtered with
      | f :: _ => f
      | [] => (parts.getLastD []))
  else combined

/-- `inferIngredientNotes` (source lines 761-804). -/
def inferIngredientNotesL (rawName : List Char) : List Char :=
  if rawName.isEmpty then [] else
  let normalized := normalizeIngredientNameL rawName
  if normalized.isEmpty then [] else
  let lowerRaw := rawName.map Char.toLower
  let lowerNorm := normalized.map Char.toLower
  match indexOfSub lowerRaw lowerNorm with
  | none => []
  | some idx =>
    let before := trimChars (rawName.take idx)
    let after := trimChars (rawName.drop (idx + normalized.length))
    let combined :=
      match before.isEmpty, after.isEmpty with
      | false, false => before ++ ' ' :: after
      | false, true => before
      | true, false => after
      | true, true => []
    let combined := trimChars combined
    let combined :=
      ((combined.dropWhile isEdgePunct).reverse.dropWhile isEdgePunct).reverse
    if combined.isEmpty then [] else
    let combined :=
      match combined with
      | '(' :: rest =>
        if rest ≠ [] ∧ rest.getLastD ' ' = ')' then trimChars rest.dropLast
        else combined
      | _ => combined
    let combined := dashPrefer combined
    if isPluralFrag combined then [] else
    let adj := combined.map Char.toLower
    if adj == "kosher".data || adj == "sea".data then [] else
    combined

/-- One pass of the prep-word-pulling loop body of `splitPrepWordsFromName`
(source lines 822-846): the first prep word that is a (case-insensitive)
prefix followed by a space, or a suffix preceded by a space. -/
def pullPrepWord (name : List Char) : Option (String × List Char) :=
  let lower := name.map Char.toLower
  prepWords.findSome? (fun w =>
    let wl := w.data
    if (wl ++ [' ']).isPrefixOf lower then
      some (w, trimChars (name.drop (wl.length + 1)))
    else if (' ' :: wl).isSuffixOf lower then
      some (w, trimChars (name.take (name.length - wl.length - 1)))
    else none)

/-- The `while (changed && ingredientName)` loop of source lines 822-846,
with fuel (each removal strictly shortens the name). -/
def pullLoop : Nat → List Char → List String → (List Char × List String)
  | 0, name, acc => (name, acc)
  | fuel + 1, name, acc =>
    if name.isEmpty then (name, acc) else
    match pullPrepWord name with
    | some (w, name2) => pullLoop fuel name2 (acc ++ [w])
    | none => (name, acc)

/-- JS `split(/\s+/)` with empty tokens dropped. -/
def splitWsGo : List Char → List Char → List (List Char)
  | [], acc => if acc.isEmpty then [] else [acc.reverse]
  | c :: cs, acc =>
    if isWs c then
      if acc.isEmpty then splitWsGo cs [] else acc.reverse :: splitWsGo cs []
    else splitWsGo cs (c :: acc)

def splitWsWords (cs : List Char) : List (List Char) :=
  splitWsGo cs []

/-- JS `array.join(', ')`. -/
def joinCommaSpace : List (List Char) → List Char
  | [] => []
  | [x] => x
  | x :: y :: xs => x ++ ',' :: ' ' :: joinCommaSpace (y :: xs)

/-- Case-insensitive de-duplication keeping first occurrences
(source lines 868-876). -/
def dedupeCI : List (List Char) → List (List Char) → List (List Char)
  | [], _ => []
  | t :: ts, seen =>
    let key := t.map Char.toLower
    if seen.contains key then dedupeCI ts seen
    else t :: dedupeCI ts (key :: seen)

structure NameSplit where
  ingredientName : List Char
  notes : List Char
  deriving Repr, DecidableEq

/-- `splitPrepWordsFromName` (source lines 810-880). -/
def splitPrepWordsFromName (name : List Char) (existingNotes : List Char) : NameSplit :=
  if name.isEmpty then ⟨[], existingNotes⟩ else
  let name1 := trimChars (removeParens (trimChars name))
  let (nameF, pulled) := pullLoop (name1.length + 1) name1 []
  let notesParts :=
    (if existingNotes.isEmpty then [] else [existingNotes]) ++ pulled.map String.data
  let ingredientName :=
    trimChars ((nameF.reverse.dropWhile (fun c => c == ',' || isWs c)).reverse)
  let rawTokens :=
    ((splitOnChar ',' (joinCommaSpace notesParts)).map trimChars).filter
      (fun t => !t.isEmpty)
  let tokens := rawTokens.foldr
    (fun t acc =>
      let kept := (splitWsWords t).filter (fun w => !isPluralFrag w)
      if kept.isEmpty then acc else joinChar ' ' kept :: acc) []
  let unique := dedupeCI tokens []
  ⟨ingredientName, trimChars (joinCommaSpace unique)⟩

structure ParsedIngredient where
  quantity : ℚ
  unit : Option String
  unitType : UnitType
  ingredient : String
  notes : Option String
  originalLine : String
  isCombined : Bool := false
  originalPairs : List (ℚ × String) := []
  deriving Repr, DecidableEq

structure BaseResult where
  value : ℚ
  unit : String
  unitType : UnitType
  deriving Repr, DecidableEq

/-- `convertToBaseUnit` (source lines 1388-1404); a missing `unit` (JS `null`)
or the empty string is falsy and yields the `count` pass-through, and a table
miss returns the quantity and unit unchanged. -/
def convertToBaseUnit (quantity : ℚ) (unit : Option String) (unitType : UnitType) :
    BaseResult :=
  match unit with
  | none => ⟨quantity, "count", unitType⟩
  | some u =>
    if u = "" then ⟨quantity, "count", unitType⟩
    else if unitType = .count then ⟨quantity, u, unitType⟩
    else
      let table := if unitType = .volume then volumeUnits else weightUnits
      let lowered : String := ⟨u.data.map Char.toLower⟩
      match table.find? (fun p => p.1 == lowered) with
      | some pr =>
        if pr.2 == 0 then ⟨quantity, u, unitType⟩
        else ⟨quantity * pr.2, if unitType = .volume then "ml" else "g", unitType⟩
      | none => ⟨quantity, u, unitType⟩

/-- The header-line filter of `parseIngredientLine` (source line 1151):
`^(preparation|instructions|directions|method|steps?|serves|yield|prep| cook)`
as a prefix test on the lowercased line. -/
def isHeaderLine (l : List Char) : Bool :=
  let lower := l.map Char.toLower
  ["preparation", "instructions", "directions", "method", "step", "serves",
   "yield", "prep", " cook"].any (fun w => w.data.isPrefixOf lower)

/-- The em-dash notes split used by every branch of `parseIngredientLine`
(e.g. source lines 1210-1214). -/
def dashNotesSplit (cs : List Char) : List Char × List Char :=
  if cs.contains '—' then
    (trimChars (cs.takeWhile (fun c => c != '—')),
     trimChars ((cs.dropWhile (fun c => c != '—')).drop 1))
  else (cs, [])

/-- The loop of source lines 1178-1190 collecting additional quantity+unit
pairs from the `+`-separated segments after the first; returns the collected
pairs and the final `remainingText`. -/
def collectPairs : List (List Char) → List Char → (List QuantityUnitPair × List Char)
  | [], remText => ([], remText)
  | p :: ps, _ =>
    let part := trimChars p
    match parseQuantityUnitPair part with
    | some pair =>
      let (rest, rt) := collectPairs ps pair.remaining
      (pair :: rest, rt)
    | none => ([], part)

/-- The combined-measurement (`+`) branch of `parseIngredientLine`
(source lines 1162-1235); `none` means fall through to standard parsing. -/
def parseCombined (line : List Char) : Option ParsedIngredient :=
  match splitOnChar '+' line with
  | [] => none
  | [_] => none
  | firstPart :: restParts =>
    let firstPart := trimChars firstPart
    let restOfLine := trimChars (joinChar '+' restParts)
    match parseQuantityUnitPair firstPart with
    | none => none
    | some firstPair =>
      let (more, remText) := collectPairs restParts restOfLine
      let allPairs := firstPair :: more
      let t0 := firstPair.unitType
      let allSameType := (allPairs.all (fun p => p.unitType == t0)) && t0 != .count
      if allSameType && allPairs.length > 1 then
        let totalBaseValue :=
          (allPairs.map (fun p =>
            (convertToBaseUnit p.quantity (some p.unit) p.unitType).value)).sum
        let lastRemaining := (allPairs.getLastD firstPair).remaining
        let name0 := trimChars (if remText.isEmpty then lastRemaining else remText)
        let (ingredientName, notes0) := dashNotesSplit name0
        let notes :=
          if notes0.isEmpty then inferIngredientNotesL ingredientName else notes0
        some { quantity := totalBaseValue,
               unit := some (if t0 = .volume then "ml" else "g"),
               unitType := t0,
               ingredient := ⟨ingredientName⟩,
               notes := if notes.isEmpty then none else some ⟨notes⟩,
               originalLine := ⟨line⟩,
               isCombined := true,
               originalPairs := allPairs.map (fun p => (p.quantity, p.unit)) }
      else none

/-- The shared no-unit tail of `parseIngredientLine` (source lines 1243-1263
and 1362-1383). -/
def mkCountResult (line : List Char) (quantity : ℚ) (nameText : List Char) :
    ParsedIngredient :=
  let (ingredientName, notes0) := dashNotesSplit (trimChars nameText)
  let notes := if notes0.isEmpty then inferIngredientNotesL ingredientName else notes0
  let split := splitPrepWordsFromName ingredientName notes
  { quantity := quantity, unit := none, unitType := .count,
    ingredient := ⟨split.ingredientName⟩,
    notes := if split.notes.isEmpty then none else some ⟨split.notes⟩,
    originalLine := ⟨line⟩ }

/-- The matched-unit tail of `parseIngredientLine` (source lines 1282-1316
and 1326-1360). -/
def mkUnitResult (line : List Char) (quantity : ℚ) (m : UnitMatch) (ut : UnitType) :
    ParsedIngredient :=
  let (ingredientName, notes0) := dashNotesSplit (trimChars m.remaining)
  let notes := if notes0.isEmpty then inferIngredientNotesL ingredientName else notes0
  let split := splitPrepWordsFromName ingredientName notes
  { quantity := quantity, unit := some m.unit, unitType := ut,
    ingredient := ⟨split.ingredientName⟩,
    notes := if split.notes.isEmpty then none else some ⟨split.notes⟩,
    originalLine := ⟨line⟩ }

/-- `parseIngredientLine` (source lines 1145-1383). -/
def parseIngredientLine (lineStr : String) : Option ParsedIngredient :=
  let line := trimChars lineStr.data
  if line.isEmpty then none else
  if isHeaderLine line then none else
  match (if line.contains '+' then parseCombined line else none) with
  | some r => some r
  | none =>
    match extractQuantityCore line with
    | none => some (mkCountResult line 1 line)
    | some qr =>
      let rest := trimChars (line.drop qr.consumed)
      if rest.isEmpty then none else
      match findUnit sortedVolumeUnits rest with
      | some m => some (mkUnitResult line qr.quantity m .volume)
      | none =>
        match findUnit sortedWeightUnits rest with
        | some m => some (mkUnitResult line qr.quantity m .weight)
        | none => some (mkCountResult line qr.quantity rest)

/-- JS `text.split('\n')`. -/
def splitLines (text : String) : List String :=
  (splitOnChar '\n' text.data).map (fun l => (⟨l⟩ : String))

/-- `parseRecipe` (source lines 1677-1693): split into lines, keep the
successfully parsed ones with a non-empty ingredient name. -/
def parseRecipe (recipeText : String) : List ParsedIngredient :=
  if (trimChars recipeText.data).isEmpty then [] else
  (splitLines recipeText).foldl
    (fun acc l =>
      match parseIngredientLine l with
      | some p => if p.ingredient ≠ "" then acc ++ [p] else acc
      | none => acc) []

inductive UnitSystem where
  | imperial | metric
  deriving Repr, DecidableEq

/-- JS `Math.round` (half toward `+∞`, which is `⌊x + 1/2⌋`). -/
def jsRound (q : ℚ) : ℤ := (q + 1/2).floor

/-- JS `Math.round(x * 100) / 100`. -/
def round2 (q : ℚ) : ℚ := (jsRound (q * 100) : ℚ) / 100

/-- JS `Math.abs`. -/
def jsAbs (q : ℚ) : ℚ := if q < 0 then -q else q

/-- A JS value that is either a string or a number (the return type of
`toFraction` and `formatQuantity`). -/
inductive DisplayQty where
  | str (s : String)
  | num (q : ℚ)
  deriving Repr, DecidableEq

/-- The `fractions` table of `toFraction` (source lines 1612-1628). -/
def commonFractions : List (ℚ × String) :=
  [(0.125, "1/8"), (0.167, "1/6"), (0.2, "1/5"), (0.25, "1/4"),
   (0.333, "1/3"), (0.375, "3/8"), (0.4, "2/5"), (0.5, "1/2"),
   (0.6, "3/5"), (0.625, "5/8"), (0.667, "2/3"), (0.75, "3/4"),
   (0.8, "4/5"), (0.833, "5/6"), (0.875, "7/8")]

/-- `toFraction` (source lines 1605-1639); the `isNaN` guard cannot fire
for `ℚ`.  Every table string contains `/`. -/
def toFraction (decimal : ℚ) : DisplayQty :=
  match commonFractions.find? (fun f => jsAbs (decimal - f.1) < 0.015) with
  | some f => .str f.2
  | none => .num (round2 decimal)

/-- `formatQuantity` (source lines 1645-1672).  `Math.floor(rounded)` equals
`rounded` as a number whenever the conditional selects it, so both arms of the
trailing-zero conditional carry the same rational value. -/
def formatQuantity (qty : ℚ) : DisplayQty :=
  let wholePart : ℤ := qty.floor
  let decimalPart : ℚ := qty - (wholePart : ℚ)
  if decimalPart > 0.01 then
    match toFraction decimalPart with
    | .str frac =>
      if wholePart > 0 then .str (toString wholePart ++ " " ++ frac)
      else .str frac
    | .num _ =>
      let rounded := round2 qty
      if rounded = (rounded.floor : ℚ) then .num (rounded.floor : ℚ) else .num rounded
  else
    if wholePart ≠ 0 then .num (wholePart : ℚ) else .num (jsRound qty : ℚ)

structure PreferredResult where
  value : ℚ
  unit : String
  displayQuantity : DisplayQty
  displayUnit : String
  flOz : Option ℚ
  deriving Repr, DecidableEq

/-- Table access `conversions[key]` for the fixed keys used by
`convertToPreferredUnitSystem` (all of them present in the table). -/
def convFactor (table : List (String × ℚ)) (key : String) : ℚ :=
  ((table.find? (fun p => p.1 == key)).map Prod.snd).getD 0

/-- `convertToPreferredUnitSystem` (source lines 1409-1505), with the global
`unitSystem` passed explicitly. -/
def convertToPreferredUnitSystem (unitSystem : UnitSystem) (baseValue : ℚ)
    (unitType : UnitType) : PreferredResult :=
  match unitType with
  | .count => ⟨baseValue, "count", .num baseValue, "", none⟩
  | _ =>
    let conversions := if unitType = .volume then volumeUnits else weightUnits
    match unitSystem with
    | .metric =>
      if unitType = .volume then
        ⟨baseValue, "ml", formatQuantity baseValue, "ml", none⟩
      else
        ⟨baseValue, "g", formatQuantity baseValue, "g", none⟩
    | .imperial =>
      if unitType = .volume then
        let flOz := baseValue / convFactor conversions "fluid ounce"
        let roundedFlOz := round2 flOz
        let cup := baseValue / convFactor conversions "cup"
        if cup ≥ 0.125 then
          ⟨cup, "cup", formatQuantity cup,
           if cup = 1 then "cup" else "cups", some roundedFlOz⟩
        else
          let tbsp := baseValue / convFactor conversions "tablespoon"
          if tbsp ≥ 0.5 then
            ⟨tbsp, "tablespoon", formatQuantity tbsp,
             if tbsp = 1 then "tablespoon" else "tablespoons", some roundedFlOz⟩
          else
            let tsp := baseValue / convFactor conversions "teaspoon"
            ⟨tsp, "teaspoon", formatQuantity tsp,
             if tsp = 1 then "teaspoon" else "teaspoons", some roundedFlOz⟩
      else
        let oz := baseValue / convFactor conversions "ounce"
        if oz ≥ 16 then
          let lbs := oz / 16
          ⟨lbs, "pound", formatQuantity lbs,
           if lbs = 1 then "pound" else "pounds", none⟩
        else
          ⟨oz, "ounce", formatQuantity oz,
           if oz = 1 then "ounce" else "ounces", none⟩

structure Recipe where
  id : Nat
  name : String
  ingredients : List ParsedIngredient
  deriving Repr, DecidableEq

/-- One element of a consolidated entry's `quantities` array
(source lines 2365-2371). -/
structure Contribution where
  value : ℚ
  unit : String
  unitType : UnitType
  originalQuantity : ℚ
  originalUnit : Option String
  deriving Repr, DecidableEq

structure GroupedQuantity where
  displayQuantity : Option DisplayQty
  displayUnit : Option String
  unitType : Option UnitType
  flOz : Option ℚ
  deriving Repr, DecidableEq

/-- A value of the `consolidatedIngredients` map; optional fields model JS
properties that may be absent. -/
structure ConsolidatedEntry where
  name : String
  originalName : String
  quantities : List Contribution
  sources : List String
  displayQuantity : Option DisplayQty := none
  displayUnit : Option String := none
  displayUnitType : Option UnitType := none
  flOz : Option ℚ := none
  groupedQuantities : Option (List GroupedQuantity) := none
  deriving Repr, DecidableEq

/-- Insert a contribution under `key` in the ordered map, creating the entry
on first sight (source lines 2350-2375). -/
def pushContribution (acc : List (String × ConsolidatedEntry)) (key : String)
    (origName : String) (q : Contribution) (src : String) :
    List (String × ConsolidatedEntry) :=
  match acc with
  | [] => [(key, { name := key, originalName := origName,
                   quantities := [q], sources := [src] })]
  | (k, e) :: rest =>
    if k = key then
      (k, { e with
              quantities := e.quantities ++ [q]
              sources := e.sources ++ [src] }) :: rest
    else (k, e) :: pushContribution rest key origName q src

/-- Ordered-map lookup on the multiplier object (JS `obj[key]`). -/
def objGet (m : List (Nat × ℚ)) (id : Nat) : Option ℚ :=
  match m with
  | [] => none
  | (k, v) :: rest => if k = id then some v else objGet rest id

/-- `recipeMultipliers[recipe.id] || 1` (source line 2345): a missing entry
and the falsy value `0` both default to 1. -/
def getMultiplier (m : List (Nat × ℚ)) (id : Nat) : ℚ :=
  match objGet m id with
  | some v => if v = 0 then 1 else v
  | none => 1

/-- Deterministic stand-in for JS number-to-string used inside source labels
(`${multiplier}` at source line 2374); the exact digits do not matter to any
claim. -/
def ratLabel (q : ℚ) : String :=
  toString q.num ++ (if q.den = 1 then "" else "/" ++ toString q.den)

/-- The contribution-collection pass of `consolidateIngredients`
(source lines 2337-2377), as a pure function of the inputs it reads. -/
def collectContributions (recipes : List Recipe) (activeIds : List Nat)
    (mult : List (Nat × ℚ)) : List (String × ConsolidatedEntry) :=
  (recipes.filter (fun r => activeIds.contains r.id)).foldl
    (fun acc r =>
      let m := getMultiplier mult r.id
      let label := if m > 1 then r.name ++ " (×" ++ ratLabel m ++ ")" else r.name
      r.ingredients.foldl
        (fun acc ing =>
          let key := normalizeIngredientName ing.ingredient
          let mq := ing.quantity * m
          let base := convertToBaseUnit mq ing.unit ing.unitType
          pushContribution acc key ing.ingredient
            ⟨base.value, base.unit, base.unitType, mq, ing.unit⟩ label)
        acc)
    []

/-- JS `a || b` for strings (the empty string is falsy). -/
def jsOrS (a b : String) : String := if a = "" then b else a

/-- JS `a || b` for numbers (`0` is falsy; `NaN` cannot occur here). -/
def jsOrQ (a b : ℚ) : ℚ := if a = 0 then b else a

/-- `q.originalUnit || q.unit || 'none'` (source line 2386). -/
def unitKeyOf (q : Contribution) : String :=
  jsOrS (q.originalUnit.getD "") (jsOrS q.unit "none")

structure UnitGroup where
  unit : String
  unitType : UnitType
  quantities : List Contribution
  deriving Repr, DecidableEq

/-- The `byUnit` grouping of source lines 2383-2395: groups keyed by original
unit string, the group's `unit`/`unitType` taken from its first member. -/
def pushGroup (acc : List (String × UnitGroup)) (key : String) (q : Contribution) :
    List (String × UnitGroup) :=
  match acc with
  | [] => [(key, ⟨jsOrS (q.originalUnit.getD "") q.unit, q.unitType, [q]⟩)]
  | (k, g) :: rest =>
    if k = key then (k, { g with quantities := g.quantities ++ [q] }) :: rest
    else (k, g) :: pushGroup rest key q

def groupByUnit (qs : List Contribution) : List (String × UnitGroup) :=
  qs.foldl (fun acc q => pushGroup acc (unitKeyOf q) q) []

structure Phase2Acc where
  totalBaseValue : ℚ
  itemUnitType : Option UnitType
  hasCount : Bool
  countValue : ℚ
  countUnit : String
  deriving Repr, DecidableEq

/-- The per-unit-group summation loop of source lines 2397-2420.  Note that
`countValue` is assigned, not accumulated, for each count group, exactly as in
the source. -/
def phase2Step (acc : Phase2Acc) (g : UnitGroup) : Phase2Acc :=
  if g.unitType = .count ∨ g.unit = "" then
    { acc with
      hasCount := true
      countValue := (g.quantities.map (fun q => jsOrQ q.originalQuantity q.value)).sum
      countUnit := g.unit }
  else
    let tb := (g.quantities.map (fun q =>
      (convertToBaseUnit (jsOrQ q.originalQuantity q.value)
        (some (jsOrS (q.originalUnit.getD "") q.unit)) g.unitType).value)).sum
    { acc with
      totalBaseValue := acc.totalBaseValue + tb
      itemUnitType :=
        match acc.itemUnitType with
        | none => some g.unitType
        | some t => some t }

/-- The per-entry finishing step of `consolidateIngredients`
(source lines 2380-2459). -/
def finishEntry (sys : UnitSystem) (e : ConsolidatedEntry) : ConsolidatedEntry :=
  if e.quantities.isEmpty then e else
  let groups := (groupByUnit e.quantities).map Prod.snd
  let acc := groups.foldl phase2Step ⟨0, none, false, 0, ""⟩
  let e1 :=
    match acc.itemUnitType with
    | some t =>
      if acc.totalBaseValue > 0 then
        let conv := convertToPreferredUnitSystem sys acc.totalBaseValue t
        { e with
          displayQuantity := some conv.displayQuantity
          displayUnit := some conv.displayUnit
          displayUnitType := some t
          flOz := conv.flOz }
      else e
    | none => e
  if acc.hasCount then
    if acc.totalBaseValue > 0 then
      { e1 with
        groupedQuantities := some
          [⟨e1.displayQuantity, e1.displayUnit, e1.displayUnitType, e1.flOz⟩,
           ⟨some (.num acc.countValue), some acc.countUnit, some .count, none⟩]
        displayQuantity := none
        displayUnit := none }
    else
      { e1 with
        displayQuantity := some (.num acc.countValue)
        displayUnit := some acc.countUnit
        displayUnitType := some .count
        flOz := none }
  else e1

/-- `consolidateIngredients` (source lines 2337-2461) as a pure function of
the four values it reads: the recipe list, the active-id set, the multiplier
map and the unit-system preference. -/
def consolidate (recipes : List Recipe) (activeIds : List Nat)
    (mult : List (Nat × ℚ)) (sys : UnitSystem) :
    List (String × ConsolidatedEntry) :=
  (collectContributions recipes activeIds mult).map
    (fun p => (p.1, finishEntry sys p.2))

/-- The global mutable state of the application, restricted to the fields the
consolidation core reads and writes. -/
structure AppState where
  recipes : List Recipe
  activeRecipeIds : List Nat
  recipeMultipliers : List (Nat × ℚ)
  unitSystem : UnitSystem
  consolidatedIngredients : List (String × ConsolidatedEntry)
  deriving Repr, DecidableEq

/-- The `consolidateIngredients()` call that ends every transition: rebuild
`consolidatedIngredients` from scratch (source line 2338 resets the map). -/
def runConsolidate (s : AppState) : AppState :=
  { s with consolidatedIngredients :=
      consolidate s.recipes s.activeRecipeIds s.recipeMultipliers s.unitSystem }

/-- JS `Set.prototype.add` (insertion order preserved). -/
def setAdd (l : List Nat) (x : Nat) : List Nat :=
  if l.contains x then l else l ++ [x]

/-- JS `Set.prototype.delete`. -/
def setDelete (l : List Nat) (x : Nat) : List Nat :=
  l.filter (fun y => y ≠ x)

/-- JS `delete obj[key]`. -/
def objDelete (m : List (Nat × ℚ)) (id : Nat) : List (Nat × ℚ) :=
  match m with
  | [] => []
  | (k, v) :: rest =>
    if k = id then objDelete rest id else (k, v) :: objDelete rest id

/-- JS `obj[key] = v`: update in place or append. -/
def objSet (m : List (Nat × ℚ)) (id : Nat) (v : ℚ) : List (Nat × ℚ) :=
  match m with
  | [] => [(id, v)]
  | (k, w) :: rest => if k = id then (k, v) :: rest else (k, w) :: objSet rest id v

/-- `setRecipeMultiplier` (source lines 2466-2492).  The multiplier argument
arrives already parsed, `none` standing for `parseFloat` returning `NaN`.
Returns the new state and the error message, if any. -/
def setRecipeMultiplier (s : AppState) (recipeId : Nat) (multiplier : Option ℚ) :
    AppState × Option String :=
  match multiplier with
  | none => (s, some "Multiplier must be a positive number")
  | some num =>
    if num < 0 then (s, some "Multiplier must be a positive number")
    else if num = 0 then
      (runConsolidate { s with
        activeRecipeIds := setDelete s.activeRecipeIds recipeId
        recipeMultipliers := objDelete s.recipeMultipliers recipeId }, none)
    else
      (runConsolidate { s with
        activeRecipeIds := setAdd s.activeRecipeIds recipeId
        recipeMultipliers := objSet s.recipeMultipliers recipeId num }, none)

/-- `if (!recipeMultipliers[id]) recipeMultipliers[id] = 1`: the fill-in used
by `toggleRecipeActive` (source lines 2504-2506) and by the per-active-id loop
of `loadRecipes` (source lines 466-470).  JS truthiness: an absent entry and
the value `0` are falsy and get replaced by 1; any other value — including a
negative one — is kept. -/
def ensureMultiplier (m : List (Nat × ℚ)) (id : Nat) : List (Nat × ℚ) :=
  match objGet m id with
  | some v => if v = 0 then objSet m id 1 else m
  | none => objSet m id 1

/-- `toggleRecipeActive` (source lines 2497-2518).  Deactivating keeps the
multiplier; activating sets it to 1 when the current entry is falsy (absent
or `0`). -/
def toggleRecipeActive (s : AppState) (recipeId : Nat) : AppState :=
  if s.activeRecipeIds.contains recipeId then
    runConsolidate { s with activeRecipeIds := setDelete s.activeRecipeIds recipeId }
  else
    runConsolidate { s with
      activeRecipeIds := setAdd s.activeRecipeIds recipeId
      recipeMultipliers := ensureMultiplier s.recipeMultipliers recipeId }

/-- JS `new Set(array)`: de-duplicate preserving first occurrences. -/
def dedupNat : List Nat → List Nat → List Nat
  | [], _ => []
  | x :: xs, seen =>
    if seen.contains x then dedupNat xs seen else x :: dedupNat xs (seen ++ [x])

/-- `loadRecipes` (source lines 440-527), restricted to the recipe list,
active-id set and multiplier map it installs.  `savedRecipes = none` models an
absent recipe key (the function then leaves the state untouched);
`savedActive` / `savedMultipliers = none` model an absent or unparsable stored
value (both failure modes take the same default branch in the source). -/
def loadRecipes (s : AppState) (savedRecipes : Option (List Recipe))
    (savedActive : Option (List Nat))
    (savedMultipliers : Option (List (Nat × ℚ))) : AppState :=
  match savedRecipes with
  | none => s
  | some recipes =>
    let activeRecipeIds :=
      match savedActive with
      | some ids => dedupNat ids []
      | none => dedupNat (recipes.map (fun r => r.id)) []
    let m0 := savedMultipliers.getD []
    let recipeMultipliers := activeRecipeIds.foldl ensureMultiplier m0
    runConsolidate { s with
      recipes := recipes
      activeRecipeIds := activeRecipeIds
      recipeMultipliers := recipeMultipliers }

/-- The parse-and-validate prefix of `addRecipe` (source lines 1896-1910):
empty input and zero parsed ingredients are rejected with an error message
and the state is left unchanged; on success the recipe goes to the review
modal (outside the consolidation state), so here too the state is returned
as it was. -/
def addRecipe (s : AppState) (recipeText : String) : AppState × Option String :=
  let trimmed : String := ⟨trimChars recipeText.data⟩
  if trimmed.data.isEmpty then (s, some "Please enter a recipe")
  else
    let ingredients := parseRecipe trimmed
    if ingredients.length = 0 then
      (s, some "No ingredients found in the recipe. Please check the format.")
    else (s, none)

/-! ### Helper lemmas -/

theorem spanP_all {p : Char → Bool} {a : List Char} (h : ∀ c ∈ a, p c = true) :
    spanP p a = (a, []) := by
  induction a with
  | nil => rfl
  | cons c cs ih =>
    simp only [spanP, h c (List.mem_cons_self c cs),
      ih (fun x hx => h x (List.mem_cons_of_mem c hx)), if_true]

theorem spanP_append {p : Char → Bool} {a : List Char} {b : Char} {t : List Char}
    (ha : ∀ c ∈ a, p c = true) (hb : p b = false) :
    spanP p (a ++ b :: t) = (a, b :: t) := by
  induction a with
  | nil => simp [spanP, hb]
  | cons c cs ih =>
    simp only [List.cons_append, List.append_eq, spanP,
      ha c (List.mem_cons_self c cs),
      ih (fun x hx => ha x (List.mem_cons_of_mem c hx)), if_true]

theorem dropWhile_ws_eq_self {l : List Char}
    (h : l = [] ∨ isWs (l.headD ' ') = false) :
    l.dropWhile isWs = l := by
  cases l with
  | nil => rfl
  | cons c cs =>
    rcases h with h | h
    · exact absurd h (by simp)
    · simp only [List.headD_cons] at h
      simp [List.dropWhile_cons, h]

theorem trimChars_eq_self {cs : List Char}
    (h2 : cs = [] ∨ isWs (cs.headD ' ') = false)
    (h3 : cs = [] ∨ isWs (cs.getLastD ' ') = false) :
    trimChars cs = cs := by
  unfold trimChars
  rw [dropWhile_ws_eq_self h2]
  rw [dropWhile_ws_eq_self ?_, List.reverse_reverse]
  cases cs with
  | nil => left; rfl
  | cons c cs =>
    rcases h3 with h | h
    · exact absurd h (by simp)
    · right
      rw [List.headD_eq_head?, List.head?_reverse]
      rw [List.getLastD_eq_getLast?] at h
      exact h

/-! ### Concrete data for witnesses -/

/-- A parsed ingredient as produced for the line `"2 cups flour"`. -/
def wIng : ParsedIngredient :=
  { quantity := 2, unit := some "cups", unitType := .volume, ingredient := "flour",
    notes := none, originalLine := "2 cups flour" }

def wRecipe : Recipe := ⟨1, "Pancakes", [wIng]⟩

/-- A small concrete application state used by the witnesses. -/
def wState : AppState := ⟨[wRecipe], [1], [(1, 2)], .imperial, []⟩

/-- The same state with a scribbled-over consolidated map. -/
def wStateDirty : AppState :=
  { wState with consolidatedIngredients :=
      [("junk", { name := "junk", originalName := "junk",
                  quantities := [], sources := [] })] }

/-! ### C1 -/

/-- C1: for a fixed tuple `(recipes, activeRecipeIds, recipeMultipliers,
unitSystem)`, running `consolidateIngredients` twice produces identical
consolidated maps; the map is rebuilt from scratch on every call, so it is a
pure, idempotent function of those four inputs. -/
theorem consolidateIngredients_idempotent_pure :
    (∀ s : AppState, runConsolidate (runConsolidate s) = runConsolidate s) ∧
    (∀ s₁ s₂ : AppState, s₁.recipes = s₂.recipes →
      s₁.activeRecipeIds = s₂.activeRecipeIds →
      s₁.recipeMultipliers = s₂.recipeMultipliers →
      s₁.unitSystem = s₂.unitSystem →
      (runConsolidate s₁).consolidatedIngredients =
      (runConsolidate s₂).consolidatedIngredients) := by
  refine ⟨fun s => ?_, fun s₁ s₂ h1 h2 h3 h4 => ?_⟩
  · simp [runConsolidate]
  · simp [runConsolidate, h1, h2, h3, h4]

theorem consolidateIngredients_idempotent_pure_witness :
    runConsolidate (runConsolidate wState) = runConsolidate wState ∧
    (runConsolidate wState).consolidatedIngredients =
      (runConsolidate wStateDirty).consolidatedIngredients :=
  ⟨consolidateIngredients_idempotent_pure.1 wState,
   consolidateIngredients_idempotent_pure.2 wState wStateDirty rfl rfl rfl rfl⟩

/-! ### C3 -/

/-- C3: under the imperial system, a positive base volume `v` (ml) is shown in
cups when `v/240 ≥ 1/8`, else in tablespoons when `v/15 ≥ 1/2`, else in
teaspoons, each volume branch carrying `v/30` rounded to two decimals as a
fluid-ounce annotation; a positive base weight `w` (g) is shown in pounds when
`w/28.35 ≥ 16` ounces and in ounces otherwise. -/
theorem convertToPreferredUnitSystem_imperial_thresholds :
    (∀ v : ℚ, 0 < v →
      ((1/8 : ℚ) ≤ v / 240 →
        (convertToPreferredUnitSystem .imperial v .volume).unit = "cup" ∧
        (convertToPreferredUnitSystem .imperial v .volume).value = v / 240 ∧
        (convertToPreferredUnitSystem .imperial v .volume).flOz =
          some (round2 (v / 30))) ∧
      (v / 240 < 1/8 → (1/2 : ℚ) ≤ v / 15 →
        (convertToPreferredUnitSystem .imperial v .volume).unit = "tablespoon" ∧
        (convertToPreferredUnitSystem .imperial v .volume).value = v / 15 ∧
        (convertToPreferredUnitSystem .imperial v .volume).flOz =
          some (round2 (v / 30))) ∧
      (v / 240 < 1/8 → v / 15 < 1/2 →
        (convertToPreferredUnitSystem .imperial v .volume).unit = "teaspoon" ∧
        (convertToPreferredUnitSystem .imperial v .volume).value = v / 5 ∧
        (convertToPreferredUnitSystem .imperial v .volume).flOz =
          some (round2 (v / 30)))) ∧
    (∀ w : ℚ, 0 < w →
      ((16 : ℚ) ≤ w / 28.35 →
        (convertToPreferredUnitSystem .imperial w .weight).unit = "pound" ∧
        (convertToPreferredUnitSystem .imperial w .weight).value = w / 28.35 / 16) ∧
      (w / 28.35 < 16 →
        (convertToPreferredUnitSystem .imperial w .weight).unit = "ounce" ∧
        (convertToPreferredUnitSystem .imperial w .weight).value = w / 28.35)) := by
  have hfo : convFactor volumeUnits "fluid ounce" = 30 := by decide
  have hcup : convFactor volumeUnits "cup" = 240 := by decide
  have htbsp : convFactor volumeUnits "tablespoon" = 15 := by decide
  have htsp : convFactor volumeUnits "teaspoon" = 5 := by decide
  have hoz : convFactor weightUnits "ounce" = 28.35 := by decide
  have evalVol : ∀ v : ℚ, convertToPreferredUnitSystem .imperial v .volume =
      (if (0.125 : ℚ) ≤ v / 240 then
        ⟨v / 240, "cup", formatQuantity (v / 240),
         if v / 240 = 1 then "cup" else "cups", some (round2 (v / 30))⟩
      else if (0.5 : ℚ) ≤ v / 15 then
        ⟨v / 15, "tablespoon", formatQuantity (v / 15),
         if v / 15 = 1 then "tablespoon" else "tablespoons", some (round2 (v / 30))⟩
      else
        ⟨v / 5, "teaspoon", formatQuantity (v / 5),
         if v / 5 = 1 then "teaspoon" else "teaspoons", some (round2 (v / 30))⟩) := by
    intro v
    simp [convertToPreferredUnitSystem, hfo, hcup, htbsp, htsp]
  have evalWt : ∀ w : ℚ, convertToPreferredUnitSystem .imperial w .weight =
      (if (16 : ℚ) ≤ w / 28.35 then
        ⟨w / 28.35 / 16, "pound", formatQuantity (w / 28.35 / 16),
         if w / 28.35 / 16 = 1 then "pound" else "pounds", none⟩
      else
        ⟨w / 28.35, "ounce", formatQuantity (w / 28.35),
         if w / 28.35 = 1 then "ounce" else "ounces", none⟩) := by
    intro w
    simp [convertToPreferredUnitSystem, hoz]
  have h18 : (0.125 : ℚ) = 1/8 := by norm_num
  have h12 : (0.5 : ℚ) = 1/2 := by norm_num
  constructor
  · intro v _
    rw [evalVol v]
    refine ⟨fun h => ?_, fun h1 h2 => ?_, fun h1 h2 => ?_⟩
    · rw [if_pos (by rw [h18]; exact h)]
      exact ⟨rfl, rfl, rfl⟩
    · rw [if_neg (by rw [h18]; exact not_le.mpr h1), if_pos (by rw [h12]; exact h2)]
      exact ⟨rfl, rfl, rfl⟩
    · rw [if_neg (by rw [h18]; exact not_le.mpr h1),
          if_neg (by rw [h12]; exact not_le.mpr h2)]
      exact ⟨rfl, rfl, rfl⟩
  · intro w _
    rw [evalWt w]
    refine ⟨fun h => ?_, fun h => ?_⟩
    · rw [if_pos h]
      exact ⟨rfl, rfl⟩
    · rw [if_neg (not_le.mpr h)]
      exact ⟨rfl, rfl⟩

theorem convertToPreferredUnitSystem_imperial_thresholds_witness :
    (convertToPreferredUnitSystem .imperial 240 .volume).unit = "cup" ∧
    (convertToPreferredUnitSystem .imperial 30 .weight).unit = "ounce" :=
  ⟨((convertToPreferredUnitSystem_imperial_thresholds.1 240 (by norm_num)).1
      (by norm_num)).1,
   ((convertToPreferredUnitSystem_imperial_thresholds.2 30 (by norm_num)).2
      (by norm_num)).1⟩

/-! ### C10 -/

/-- C10: when the multiplier argument parses to `NaN` (modelled `none`) or to a
negative number, `setRecipeMultiplier` returns without modifying the state:
`activeRecipeIds`, `recipeMultipliers` and the consolidated map are all
unchanged on the error path. -/
theorem setRecipeMultiplier_error_path_frame :
    ∀ (s : AppState) (recipeId : Nat) (m : Option ℚ),
      (m = none ∨ ∃ q, m = some q ∧ q < 0) →
      (setRecipeMultiplier s recipeId m).1 = s := by
  intro s rid m hm
  rcases hm with rfl | ⟨q, rfl, hq⟩
  · rfl
  · simp only [setRecipeMultiplier, if_pos hq]

theorem setRecipeMultiplier_error_path_frame_witness :
    (setRecipeMultiplier wState 1 (some (-1))).1 = wState :=
  setRecipeMultiplier_error_path_frame wState 1 (some (-1))
    (Or.inr ⟨-1, rfl, by norm_num⟩)

/-! ### C4 -/

/-- The claim's invariant: every id in `activeRecipeIds` has an entry ≥ 0 in
the multiplier map. -/
def MultInvariant (s : AppState) : Prop :=
  ∀ id ∈ s.activeRecipeIds, ∃ v, objGet s.recipeMultipliers id = some v ∧ 0 ≤ v

/-- The strengthened, inductive invariant: every active id has an entry, and
every entry in the multiplier map (for active and inactive ids alike) is
nonnegative. -/
def StrongInvariant (s : AppState) : Prop :=
  (∀ id ∈ s.activeRecipeIds, (objGet s.recipeMultipliers id).isSome = true) ∧
  (∀ p ∈ s.recipeMultipliers, (0 : ℚ) ≤ p.2)

theorem objGet_objSet (m : List (Nat × ℚ)) (id j : Nat) (v : ℚ) :
    objGet (objSet m id v) j = if j = id then some v else objGet m j := by
  induction m with
  | nil =>
    by_cases h : j = id
    · subst h; simp [objSet, objGet]
    · have h' : ¬ id = j := fun hh => h hh.symm
      simp [objSet, objGet, h, h']
  | cons p rest ih =>
    obtain ⟨k, w⟩ := p
    by_cases hk : k = id
    · subst hk
      by_cases hj : j = k
      · subst hj; simp [objSet, objGet]
      · have hj' : ¬ k = j := fun hh => hj hh.symm
        simp [objSet, objGet, hj, hj']
    · by_cases hj : k = j
      · subst hj
        simp [objSet, objGet, hk]
      · simp [objSet, objGet, hk, hj, ih]

theorem objGet_objDelete (m : List (Nat × ℚ)) (id j : Nat) :
    objGet (objDelete m id) j = if j = id then none else objGet m j := by
  induction m with
  | nil => simp [objDelete, objGet]
  | cons p rest ih =>
    obtain ⟨k, w⟩ := p
    by_cases hk : k = id
    · subst hk
      by_cases hj : j = k
      · subst hj; simp [objDelete, objGet, ih]
      · have hj' : ¬ k = j := fun hh => hj hh.symm
        simp [objDelete, objGet, ih, hj, hj']
    · by_cases hj : k = j
      · subst hj
        simp [objDelete, objGet, hk]
      · simp [objDelete, objGet, hk, hj, ih]

theorem mem_objDelete_subset {m : List (Nat × ℚ)} {id : Nat} {p : Nat × ℚ}
    (h : p ∈ objDelete m id) : p ∈ m := by
  induction m with
  | nil => simp [objDelete] at h
  | cons q rest ih =>
    obtain ⟨k, w⟩ := q
    by_cases hk : k = id
    · rw [objDelete, if_pos hk] at h
      exact List.mem_cons_of_mem _ (ih h)
    · rw [objDelete, if_neg hk] at h
      rcases List.mem_cons.mp h with rfl | h
      · exact List.mem_cons_self _ _
      · exact List.mem_cons_of_mem _ (ih h)

theorem mem_objSet_cases {m : List (Nat × ℚ)} {id : Nat} {v : ℚ} {p : Nat × ℚ}
    (h : p ∈ objSet m id v) : p ∈ m ∨ p = (id, v) := by
  induction m with
  | nil => simpa [objSet] using h
  | cons q rest ih =>
    obtain ⟨k, w⟩ := q
    by_cases hk : k = id
    · subst hk
      simp only [objSet, if_pos rfl] at h
      rcases List.mem_cons.mp h with rfl | h
      · right; rfl
      · left; exact List.mem_cons_of_mem _ h
    · simp only [objSet, if_neg hk] at h
      rcases List.mem_cons.mp h with rfl | h
      · left; exact List.mem_cons_self _ _
      · rcases ih h with h | h
        · left; exact List.mem_cons_of_mem _ h
        · right; exact h

theorem objGet_mem {m : List (Nat × ℚ)} {j : Nat} {v : ℚ}
    (h : objGet m j = some v) : (j, v) ∈ m := by
  induction m with
  | nil => simp [objGet] at h
  | cons p rest ih =>
    obtain ⟨k, w⟩ := p
    by_cases hk : k = j
    · subst hk
      rw [objGet, if_pos rfl] at h
      obtain rfl := Option.some.inj h
      exact List.mem_cons_self _ _
    · rw [objGet, if_neg hk] at h
      exact List.mem_cons_of_mem _ (ih h)

theorem mem_setAdd {l : List Nat} {x j : Nat} :
    j ∈ setAdd l x ↔ j ∈ l ∨ j = x := by
  unfold setAdd
  by_cases h : l.contains x
  · rw [if_pos h]
    have hx : x ∈ l := by simpa using h
    constructor
    · exact Or.inl
    · rintro (hj | rfl)
      · exact hj
      · exact hx
  · rw [if_neg h]
    simp

theorem mem_setDelete {l : List Nat} {x j : Nat} :
    j ∈ setDelete l x ↔ j ∈ l ∧ j ≠ x := by
  unfold setDelete
  simp

/-- A state reachable through `loadRecipes` from well-formed persisted JSON:
recipe 1 is inactive but carries a negative stored multiplier. -/
def cexState : AppState := ⟨[⟨1, "r", []⟩], [], [(1, -2)], .imperial, []⟩

/-- C4 counterexample: `cexState` satisfies the claimed invariant (vacuously —
no recipe is active), yet toggling recipe 1 active keeps its negative
multiplier entry (`!(-2)` is falsy in JS only for `0`), so the invariant does
not survive `toggleRecipeActive`. -/
theorem multiplier_invariant_cex :
    MultInvariant cexState ∧
    (toggleRecipeActive cexState 1).activeRecipeIds = [1] ∧
    objGet (toggleRecipeActive cexState 1).recipeMultipliers 1 = some (-2) ∧
    ¬ MultInvariant (toggleRecipeActive cexState 1) := by
  refine ⟨?_, by decide, by decide, ?_⟩
  · intro id hid
    simp [cexState] at hid
  · intro h
    obtain ⟨v, hv, h0⟩ := h 1 (by decide)
    have he : objGet (toggleRecipeActive cexState 1).recipeMultipliers 1 =
        some (-2) := by decide
    rw [he] at hv
    rw [← Option.some.inj hv] at h0
    norm_num at h0

theorem ensureMultiplier_spec (m : List (Nat × ℚ)) (id : Nat)
    (hm : ∀ p ∈ m, (0 : ℚ) ≤ p.2) :
    (∀ p ∈ ensureMultiplier m id, (0 : ℚ) ≤ p.2) ∧
    (objGet (ensureMultiplier m id) id).isSome = true ∧
    (∀ j, (objGet m j).isSome = true →
      (objGet (ensureMultiplier m id) j).isSome = true) := by
  cases hg : objGet m id with
  | some v =>
    simp only [ensureMultiplier, hg]
    by_cases h0 : v = 0
    · rw [if_pos h0]
      refine ⟨?_, ?_, ?_⟩
      · intro p hp
        rcases mem_objSet_cases hp with hp | rfl
        · exact hm p hp
        · norm_num
      · rw [objGet_objSet, if_pos rfl]; rfl
      · intro j hj
        rw [objGet_objSet]
        by_cases hji : j = id
        · rw [if_pos hji]; rfl
        · rw [if_neg hji]; exact hj
    · rw [if_neg h0]
      exact ⟨hm, by rw [hg]; rfl, fun j hj => hj⟩
  | none =>
    simp only [ensureMultiplier, hg]
    refine ⟨?_, ?_, ?_⟩
    · intro p hp
      rcases mem_objSet_cases hp with hp | rfl
      · exact hm p hp
      · norm_num
    · rw [objGet_objSet, if_pos rfl]; rfl
    · intro j hj
      rw [objGet_objSet]
      by_cases hji : j = id
      · rw [if_pos hji]; rfl
      · rw [if_neg hji]; exact hj

theorem foldl_ensure_spec (ids : List Nat) :
    ∀ m : List (Nat × ℚ), (∀ p ∈ m, (0 : ℚ) ≤ p.2) →
      (∀ p ∈ ids.foldl ensureMultiplier m, (0 : ℚ) ≤ p.2) ∧
      (∀ j, (objGet m j).isSome = true →
        (objGet (ids.foldl ensureMultiplier m) j).isSome = true) ∧
      (∀ id ∈ ids, (objGet (ids.foldl ensureMultiplier m) id).isSome = true) := by
  induction ids with
  | nil =>
    intro m hm
    exact ⟨hm, fun j h => h, by simp⟩
  | cons i rest ih =>
    intro m hm
    obtain ⟨h1, h2, h3⟩ := ensureMultiplier_spec m i hm
    obtain ⟨g1, g2, g3⟩ := ih (ensureMultiplier m i) h1
    simp only [List.foldl_cons]
    refine ⟨g1, fun j hj => g2 j (h3 j hj), ?_⟩
    intro id hid
    rcases List.mem_cons.mp hid with rfl | hid
    · exact g2 id h2
    · exact g3 id hid

/-- C4 amended: the claimed invariant is preserved by `setRecipeMultiplier`;
the strengthened invariant (additionally requiring the entries of inactive
ids to be nonnegative) is preserved by `setRecipeMultiplier` and
`toggleRecipeActive` and established by `loadRecipes` whenever the persisted
multiplier map contains no negative value; the strengthened invariant implies
the claimed one; and `setRecipeMultiplier` with value 0 removes the id from
the active set. -/
theorem multiplier_invariant_amended :
    (∀ (s : AppState) (id : Nat) (mv : Option ℚ),
      MultInvariant s → MultInvariant (setRecipeMultiplier s id mv).1) ∧
    (∀ (s : AppState) (id : Nat) (mv : Option ℚ),
      StrongInvariant s → StrongInvariant (setRecipeMultiplier s id mv).1) ∧
    (∀ (s : AppState) (id : Nat),
      StrongInvariant s → StrongInvariant (toggleRecipeActive s id)) ∧
    (∀ (s : AppState) (sr : Option (List Recipe)) (sa : Option (List Nat))
       (sm : Option (List (Nat × ℚ))),
      StrongInvariant s → (∀ p ∈ sm.getD [], (0 : ℚ) ≤ p.2) →
      StrongInvariant (loadRecipes s sr sa sm)) ∧
    (∀ s : AppState, StrongInvariant s → MultInvariant s) ∧
    (∀ (s : AppState) (id : Nat),
      id ∉ ((setRecipeMultiplier s id (some 0)).1).activeRecipeIds) := by
  have hstDel : ∀ (s : AppState) (id : Nat),
      (setRecipeMultiplier s id (some 0)).1 =
      runConsolidate { s with
        activeRecipeIds := setDelete s.activeRecipeIds id
        recipeMultipliers := objDelete s.recipeMultipliers id } := by
    intro s id
    norm_num [setRecipeMultiplier]
  have hstSet : ∀ (s : AppState) (id : Nat) (q : ℚ), ¬ q < 0 → q ≠ 0 →
      (setRecipeMultiplier s id (some q)).1 =
      runConsolidate { s with
        activeRecipeIds := setAdd s.activeRecipeIds id
        recipeMultipliers := objSet s.recipeMultipliers id q } := by
    intro s id q hq h0
    simp [setRecipeMultiplier, hq, h0]
  have hstErr : ∀ (s : AppState) (id : Nat) (q : ℚ), q < 0 →
      (setRecipeMultiplier s id (some q)).1 = s := by
    intro s id q hq
    simp [setRecipeMultiplier, hq]
  refine ⟨?_, ?_, ?_, ?_, ?_, ?_⟩
  · -- setRecipeMultiplier preserves the claimed invariant
    intro s id mv hInv
    match mv with
    | none => exact hInv
    | some q =>
      by_cases hq : q < 0
      · rw [hstErr s id q hq]; exact hInv
      · by_cases h0 : q = 0
        · subst h0
          intro j hj
          rw [hstDel s id] at hj
          simp only [runConsolidate] at hj
          obtain ⟨hjl, hjne⟩ := mem_setDelete.mp hj
          obtain ⟨v, hv, h0v⟩ := hInv j hjl
          refine ⟨v, ?_, h0v⟩
          rw [hstDel s id]
          simp only [runConsolidate]
          rw [objGet_objDelete, if_neg hjne]
          exact hv
        · intro j hj
          rw [hstSet s id q hq h0] at hj
          simp only [runConsolidate] at hj
          by_cases hji : j = id
          · subst hji
            refine ⟨q, ?_, not_lt.mp hq⟩
            rw [hstSet s j q hq h0]
            simp only [runConsolidate]
            rw [objGet_objSet, if_pos rfl]
          · rcases mem_setAdd.mp hj with hjl | rfl
            · obtain ⟨v, hv, h0v⟩ := hInv j hjl
              refine ⟨v, ?_, h0v⟩
              rw [hstSet s id q hq h0]
              simp only [runConsolidate]
              rw [objGet_objSet, if_neg hji]
              exact hv
            · exact absurd rfl hji
  · -- setRecipeMultiplier preserves the strengthened invariant
    intro s id mv hInv
    obtain ⟨hA, hN⟩ := hInv
    match mv with
    | none => exact ⟨hA, hN⟩
    | some q =>
      by_cases hq : q < 0
      · rw [hstErr s id q hq]; exact ⟨hA, hN⟩
      · by_cases h0 : q = 0
        · subst h0
          rw [hstDel s id]
          simp only [runConsolidate]
          refine ⟨?_, ?_⟩
          · intro j hj
            simp only at hj
            obtain ⟨hjl, hjne⟩ := mem_setDelete.mp hj
            simp only
            rw [objGet_objDelete, if_neg hjne]
            exact hA j hjl
          · intro p hp
            simp only at hp
            exact hN p (mem_objDelete_subset hp)
        · rw [hstSet s id q hq h0]
          simp only [runConsolidate]
          refine ⟨?_, ?_⟩
          · intro j hj
            simp only at hj ⊢
            by_cases hji : j = id
            · rw [objGet_objSet, if_pos hji]; rfl
            · rw [objGet_objSet, if_neg hji]
              rcases mem_setAdd.mp hj with hjl | rfl
              · exact hA j hjl
              · exact absurd rfl hji
          · intro p hp
            simp only at hp
            rcases mem_objSet_cases hp with hp | rfl
            · exact hN p hp
            · exact not_lt.mp hq
  · -- toggleRecipeActive preserves the strengthened invariant
    intro s id hInv
    obtain ⟨hA, hN⟩ := hInv
    unfold toggleRecipeActive
    by_cases h : s.activeRecipeIds.contains id
    · rw [if_pos h]
      refine ⟨?_, ?_⟩
      · intro j hj
        simp only [runConsolidate] at hj ⊢
        obtain ⟨hjl, _⟩ := mem_setDelete.mp hj
        exact hA j hjl
      · intro p hp
        simp only [runConsolidate] at hp
        exact hN p hp
    · rw [if_neg h]
      obtain ⟨e1, e2, e3⟩ := ensureMultiplier_spec s.recipeMultipliers id hN
      refine ⟨?_, ?_⟩
      · intro j hj
        simp only [runConsolidate] at hj ⊢
        rcases mem_setAdd.mp hj with hjl | rfl
        · exact e3 j (hA j hjl)
        · exact e2
      · intro p hp
        simp only [runConsolidate] at hp
        exact e1 p hp
  · -- loadRecipes establishes the strengthened invariant
    intro s sr sa sm hInv hsm
    match sr with
    | none => exact hInv
    | some rs =>
      obtain ⟨f1, f2, f3⟩ := foldl_ensure_spec
        (match sa with
          | some ids => dedupNat ids []
          | none => dedupNat (rs.map (fun r => r.id)) []) (sm.getD []) hsm
      refine ⟨?_, ?_⟩
      · intro j hj
        simp only [loadRecipes, runConsolidate] at hj ⊢
        exact f3 j hj
      · intro p hp
        simp only [loadRecipes, runConsolidate] at hp
        exact f1 p hp
  · -- the strengthened invariant implies the claimed one
    intro s hInv j hj
    obtain ⟨hA, hN⟩ := hInv
    obtain ⟨v, hv⟩ := Option.isSome_iff_exists.mp (hA j hj)
    exact ⟨v, hv, hN _ (objGet_mem hv)⟩
  · -- multiplier 0 removes the id from the active set
    intro s id hmem
    rw [hstDel s id] at hmem
    simp only [runConsolidate] at hmem
    obtain ⟨_, hne⟩ := mem_setDelete.mp hmem
    exact hne rfl

/-- The empty application state. -/
def wEmpty : AppState := ⟨[], [], [], .imperial, []⟩

theorem multiplier_invariant_amended_witness :
    MultInvariant (setRecipeMultiplier wEmpty 1 (some 2)).1 ∧
    StrongInvariant (toggleRecipeActive wEmpty 1) ∧
    StrongInvariant (loadRecipes wEmpty (some [wRecipe]) (some [1]) (some [(1, 2)])) ∧
    (1 : Nat) ∉ ((setRecipeMultiplier wEmpty 1 (some 0)).1).activeRecipeIds :=
  ⟨multiplier_invariant_amended.1 wEmpty 1 (some 2)
      (fun id hid => absurd hid (by simp [wEmpty])),
   multiplier_invariant_amended.2.2.1 wEmpty 1
      ⟨fun id hid => absurd hid (by simp [wEmpty]),
       fun p hp => absurd hp (by simp [wEmpty])⟩,
   multiplier_invariant_amended.2.2.2.1 wEmpty (some [wRecipe]) (some [1])
      (some [(1, 2)])
      ⟨fun id hid => absurd hid (by simp [wEmpty]),
       fun p hp => absurd hp (by simp [wEmpty])⟩
      (by intro p hp; simp at hp; rw [hp]; norm_num),
   multiplier_invariant_amended.2.2.2.2.2 wEmpty 1⟩

/-! ### C7 -/

/-- C7 counterexample: the cleaned form of `"apples"` ends in `s` and is not a
special `-oes` word, yet `normalizeIngredientName` leaves it as `"apples"`
instead of stripping the trailing `s`: the `endsWith('es')` branch captures
every `-es` word and only singularizes `tomatoes`/`potatoes`, so the trailing
`s` of other `-es` words is never stripped. -/
theorem normalizeIngredientName_plural_cex :
    pluralStep "apples".data = "apples".data ∧
    normalizeIngredientName "apples" = "apples" ∧
    "apples" ≠ "apple" := by
  refine ⟨by decide, by decide, by decide⟩

/-- C7 amended: the plural heuristic singularizes a cleaned name ending in
`es` only when it ends in `tomatoes` or `potatoes` (dropping the `es`); a name
ending in `s` but not in `es` has the trailing `s` stripped; every other name
— including every other `-es` word — is left unchanged before alias lookup. -/
theorem normalizeIngredientName_plural_amended :
    (∀ cs : List Char,
      "es".data.isSuffixOf cs = true →
      (isSuffixCIB "tomatoes" cs || isSuffixCIB "potatoes" cs) = true →
      pluralStep cs = cs.dropLast.dropLast) ∧
    (∀ cs : List Char,
      "es".data.isSuffixOf cs = true →
      (isSuffixCIB "tomatoes" cs || isSuffixCIB "potatoes" cs) = false →
      pluralStep cs = cs) ∧
    (∀ cs : List Char,
      "es".data.isSuffixOf cs = false → "s".data.isSuffixOf cs = true →
      pluralStep cs = cs.dropLast) ∧
    (∀ cs : List Char,
      "es".data.isSuffixOf cs = false → "s".data.isSuffixOf cs = false →
      pluralStep cs = cs) ∧
    normalizeIngredientName "tomatoes" = "tomato" ∧
    normalizeIngredientName "potatoes" = "potato" ∧
    normalizeIngredientName "onions" = "onion" ∧
    normalizeIngredientName "carrots" = "carrot" ∧
    normalizeIngredientName "apples" = "apples" := by
  refine ⟨?_, ?_, ?_, ?_, by decide, by decide, by decide, by decide, by decide⟩
  all_goals intro cs h1 h2
  all_goals simp [pluralStep, h1, h2]

theorem normalizeIngredientName_plural_amended_witness :
    pluralStep "tomatoes".data = "tomatoes".data.dropLast.dropLast ∧
    pluralStep "apples".data = "apples".data ∧
    pluralStep "onions".data = "onions".data.dropLast ∧
    pluralStep "flour".data = "flour".data :=
  ⟨normalizeIngredientName_plural_amended.1 "tomatoes".data (by decide) (by decide),
   normalizeIngredientName_plural_amended.2.1 "apples".data (by decide) (by decide),
   normalizeIngredientName_plural_amended.2.2.1 "onions".data (by decide) (by decide),
   normalizeIngredientName_plural_amended.2.2.2.1 "flour".data (by decide) (by decide)⟩

/-! ### C8 -/

/-- The per-line keep decision of `parseRecipe` (source line 1687:
`if (parsed && parsed.ingredient)`), as an `Option`-valued function. -/
def keepLine (l : String) : Option ParsedIngredient :=
  match parseIngredientLine l with
  | some p => if p.ingredient ≠ "" then some p else none
  | none => none

theorem parseRecipe_foldl_filterMap (lines : List String)
    (acc : List ParsedIngredient) :
    lines.foldl
      (fun acc l =>
        match parseIngredientLine l with
        | some p => if p.ingredient ≠ "" then acc ++ [p] else acc
        | none => acc) acc = acc ++ lines.filterMap keepLine := by
  induction lines generalizing acc with
  | nil => simp
  | cons l rest ih =>
    simp only [List.foldl_cons, List.filterMap_cons, keepLine]
    cases h : parseIngredientLine l with
    | none =>
      dsimp only
      rw [ih]
    | some p =>
      dsimp only
      by_cases hi : p.ingredient ≠ ""
      · rw [if_pos hi, if_pos hi, ih]
        simp
      · rw [if_neg hi, if_neg hi, ih]

/-- C8: parsing failures are local and silent — `parseRecipe` is the total
function keeping exactly the lines that parse to an ingredient with a
non-empty name, an unparseable line being simply omitted; `addRecipe` never
modifies the state, and when the (trimmed) text parses to zero ingredients it
surfaces exactly the `"No ingredients found..."` validation message. -/
theorem parseRecipe_silent_addRecipe_rejects :
    (∀ text : String, trimChars text.data ≠ [] →
      parseRecipe text = (splitLines text).filterMap keepLine) ∧
    (∀ (text : String) (p : ParsedIngredient), p ∈ parseRecipe text →
      ∃ l ∈ splitLines text, parseIngredientLine l = some p ∧ p.ingredient ≠ "") ∧
    (∀ (s : AppState) (text : String), (addRecipe s text).1 = s) ∧
    (∀ (s : AppState) (text : String), trimChars text.data ≠ [] →
      parseRecipe (⟨trimChars text.data⟩ : String) = [] →
      (addRecipe s text).2 =
        some "No ingredients found in the recipe. Please check the format.") := by
  have hchar : ∀ text : String, trimChars text.data ≠ [] →
      parseRecipe text = (splitLines text).filterMap keepLine := by
    intro text h
    unfold parseRecipe
    rw [if_neg (by simpa using h)]
    simpa using parseRecipe_foldl_filterMap (splitLines text) []
  refine ⟨hchar, ?_, ?_, ?_⟩
  · intro text p hp
    by_cases h : trimChars text.data = []
    · exfalso
      unfold parseRecipe at hp
      rw [if_pos (by simpa using h)] at hp
      simp at hp
    · rw [hchar text h] at hp
      obtain ⟨l, hl, hkeep⟩ := List.mem_filterMap.mp hp
      refine ⟨l, hl, ?_⟩
      unfold keepLine at hkeep
      cases hpl : parseIngredientLine l with
      | none => rw [hpl] at hkeep; simp at hkeep
      | some q =>
        rw [hpl] at hkeep
        dsimp only at hkeep
        by_cases hq : q.ingredient ≠ ""
        · rw [if_pos hq] at hkeep
          obtain rfl := Option.some.inj hkeep
          exact ⟨rfl, hq⟩
        · rw [if_neg hq] at hkeep
          simp at hkeep
  · intro s text
    unfold addRecipe
    by_cases h : (⟨trimChars text.data⟩ : String).data.isEmpty
    · rw [if_pos h]
    · rw [if_neg h]
      by_cases h2 : (parseRecipe (⟨trimChars text.data⟩ : String)).length = 0
      · rw [if_pos h2]
      · rw [if_neg h2]
  · intro s text h hz
    unfold addRecipe
    rw [if_neg (by simpa using h), if_pos (by rw [hz]; rfl)]

theorem parseRecipe_silent_addRecipe_rejects_witness :
    trimChars "Instructions\nServes 4".data ≠ [] ∧
    parseRecipe "Instructions\nServes 4" = [] ∧
    (addRecipe wState "Instructions\nServes 4").1 = wState ∧
    (addRecipe wState "Instructions\nServes 4").2 =
      some "No ingredients found in the recipe. Please check the format." :=
  ⟨by decide, by decide,
   parseRecipe_silent_addRecipe_rejects.2.2.1 wState "Instructions\nServes 4",
   parseRecipe_silent_addRecipe_rejects.2.2.2 wState "Instructions\nServes 4"
     (by decide) (by decide)⟩

/-! ### C9 -/

theorem contains_setDelete (act : List Nat) (rid x : Nat) :
    (setDelete act rid).contains x = (act.contains x && decide (x ≠ rid)) := by
  induction act with
  | nil => simp [setDelete]
  | cons a t ih =>
    simp only [setDelete, List.filter_cons] at ih ⊢
    by_cases ha : a = rid
    · subst ha
      rw [if_neg (by simp)]
      by_cases hx : x = a
      · subst hx
        simp [List.contains_cons, ih]
      · simp [List.contains_cons, ih, hx]
    · rw [if_pos (by simpa using ha)]
      by_cases hx : x = a
      · subst hx
        simp [List.contains_cons, ih, ha]
      · simp [List.contains_cons, ih, hx]

theorem contains_setDelete_filter (rs : List Recipe) (act : List Nat) (rid : Nat) :
    rs.filter (fun r => (setDelete act rid).contains r.id) =
    (rs.filter (fun r => r.id ≠ rid)).filter (fun r => act.contains r.id) := by
  rw [List.filter_filter]
  apply List.filter_congr
  intro r _
  rw [contains_setDelete]

theorem consolidate_setDelete (rs : List Recipe) (act : List Nat)
    (m : List (Nat × ℚ)) (u : UnitSystem) (rid : Nat) :
    consolidate rs (setDelete act rid) m u =
    consolidate (rs.filter (fun r => r.id ≠ rid)) act m u := by
  unfold consolidate collectContributions
  rw [contains_setDelete_filter rs act rid]

/-- C9: toggling an active recipe inactive leaves every recipe record
(including its ingredients array) and the multiplier map unmodified, and the
next consolidation pass computes exactly what consolidating without that
recipe computes: every contribution of the toggled recipe is removed. -/
theorem toggleRecipeActive_removes_contributions :
    ∀ (s : AppState) (rid : Nat), s.activeRecipeIds.contains rid = true →
      (toggleRecipeActive s rid).recipes = s.recipes ∧
      (toggleRecipeActive s rid).recipeMultipliers = s.recipeMultipliers ∧
      (toggleRecipeActive s rid).consolidatedIngredients =
        consolidate (s.recipes.filter (fun r => r.id ≠ rid)) s.activeRecipeIds
          s.recipeMultipliers s.unitSystem := by
  intro s rid h
  unfold toggleRecipeActive
  rw [if_pos h]
  refine ⟨rfl, rfl, ?_⟩
  simp only [runConsolidate]
  exact consolidate_setDelete s.recipes s.activeRecipeIds s.recipeMultipliers
    s.unitSystem rid

theorem toggleRecipeActive_removes_contributions_witness :
    wState.activeRecipeIds.contains 1 = true ∧
    (toggleRecipeActive wState 1).recipes = wState.recipes ∧
    (toggleRecipeActive wState 1).recipeMultipliers = wState.recipeMultipliers ∧
    (toggleRecipeActive wState 1).consolidatedIngredients =
      consolidate (wState.recipes.filter (fun r => r.id ≠ 1))
        wState.activeRecipeIds wState.recipeMultipliers wState.unitSystem :=
  ⟨by decide,
   (toggleRecipeActive_removes_contributions wState 1 (by decide)).1,
   (toggleRecipeActive_removes_contributions wState 1 (by decide)).2.1,
   (toggleRecipeActive_removes_contributions wState 1 (by decide)).2.2⟩

/-! ### C5 -/

theorem isWs_of_digit {c : Char} (h : c.isDigit = true) : isWs c = false := by
  simp only [isWs, Bool.or_eq_false_iff, beq_eq_false_iff_ne, ne_eq]
  repeat' apply And.intro
  all_goals rintro rfl
  all_goals exact absurd h (by decide)

theorem headD_append_left {a : List Char} (b : List Char) {d : Char}
    (h : a ≠ []) : (a ++ b).headD d = a.headD d := by
  cases a with
  | nil => exact absurd rfl h
  | cons x xs => rfl

theorem getLastD_irrel {l : List Char} (h : l ≠ []) (d₁ d₂ : Char) :
    l.getLastD d₁ = l.getLastD d₂ := by
  cases l with
  | nil => exact absurd rfl h
  | cons x xs => rw [List.getLastD_cons, List.getLastD_cons]

theorem getLastD_append_right {a b : List Char} (hb : b ≠ []) (d : Char) :
    (a ++ b).getLastD d = b.getLastD d := by
  induction a with
  | nil => rfl
  | cons x xs ih =>
    rw [List.cons_append, List.getLastD_cons,
        getLastD_irrel (by simp [hb]) x d, ih]

theorem getLastD_mem {l : List Char} (h : l ≠ []) (d : Char) :
    l.getLastD d ∈ l := by
  rw [List.getLastD_eq_getLast?, List.getLast?_eq_getLast l h]
  exact List.getLast_mem h

/-- C5: on a string beginning with an integer range `N-M` with `M ≥ N`,
`extractQuantity` returns the upper bound `M`; in particular
`extractQuantity "6-8 cups"` returns quantity 8 (consuming `"6-8"`), not 6
or 7. -/
theorem extractQuantity_range_upper_bound :
    extractQuantity "6-8 cups" = some ⟨8, 3⟩ ∧
    (∀ (d1 d2 rest : List Char),
      d1 ≠ [] → d2 ≠ [] →
      (∀ c ∈ d1, c.isDigit = true) → (∀ c ∈ d2, c.isDigit = true) →
      digitsToNat d1 ≤ digitsToNat d2 →
      (rest = [] ∨ ((rest.headD ' ').isDigit = false ∧
        isWs (rest.getLastD ' ') = false)) →
      (extractQuantity ⟨d1 ++ '-' :: (d2 ++ rest)⟩).map (fun q => q.quantity) =
        some ((digitsToNat d2 : ℚ))) := by
  refine ⟨by decide, ?_⟩
  intro d1 d2 rest h1 h2 hd1 hd2 hle hrest
  obtain ⟨c1, d1t, rfl⟩ : ∃ c t, d1 = c :: t := by
    cases d1 with
    | nil => exact absurd rfl h1
    | cons c t => exact ⟨c, t, rfl⟩
  obtain ⟨c2, d2t, rfl⟩ : ∃ c t, d2 = c :: t := by
    cases d2 with
    | nil => exact absurd rfl h2
    | cons c t => exact ⟨c, t, rfl⟩
  have hspan2 : spanP Char.isDigit ((c2 :: d2t) ++ rest) = (c2 :: d2t, rest) := by
    rcases hrest with rfl | ⟨hh, hl⟩
    · rw [List.append_nil]
      exact spanP_all hd2
    · cases rest with
      | nil => exact absurd hl (by decide)
      | cons r0 rt => exact spanP_append hd2 (by simpa using hh)
  have hlast :
      isWs (((c1 :: d1t) ++ '-' :: ((c2 :: d2t) ++ rest)).getLastD ' ') = false := by
    rw [getLastD_append_right (by simp) ' ', List.getLastD_cons]
    rcases hrest with rfl | ⟨_, hl⟩
    · rw [List.append_nil]
      exact isWs_of_digit (hd2 _ (getLastD_mem (by simp) '-'))
    · have hrne : rest ≠ [] := by
        intro h
        subst h
        exact absurd hl (by decide)
      rw [getLastD_append_right hrne '-', getLastD_irrel hrne '-' ' ']
      exact hl
  have htrim : trimChars ((c1 :: d1t) ++ '-' :: ((c2 :: d2t) ++ rest)) =
      (c1 :: d1t) ++ '-' :: ((c2 :: d2t) ++ rest) := by
    apply trimChars_eq_self
    · right
      rw [headD_append_left _ (by simp)]
      exact isWs_of_digit (hd1 c1 (by simp))
    · right
      exact hlast
  obtain ⟨n, hr⟩ : ∃ n, tryRange ((c1 :: d1t) ++ '-' :: ((c2 :: d2t) ++ rest)) =
      some ⟨(digitsToNat (c2 :: d2t) : ℚ), n⟩ := ⟨_, by
    unfold tryRange
    rw [spanP_append hd1 (by decide)]
    dsimp only
    rw [if_neg (by simp)]
    rw [show spanP isWs ('-' :: ((c2 :: d2t) ++ rest)) =
        ([], '-' :: ((c2 :: d2t) ++ rest)) from by
      simp [spanP, show isWs '-' = false from by decide]]
    dsimp only
    rw [if_pos rfl]
    rw [show spanP isWs ((c2 :: d2t) ++ rest) = ([], (c2 :: d2t) ++ rest) from by
      rw [List.cons_append]
      simp [spanP, isWs_of_digit (hd2 c2 (by simp))]]
    dsimp only
    rw [hspan2]
    dsimp only
    rw [if_neg (by simp), if_pos hle]⟩
  show (extractQuantityCore
      (trimChars ((c1 :: d1t) ++ '-' :: ((c2 :: d2t) ++ rest)))).map
      (fun q => q.quantity) = _
  rw [htrim]
  unfold extractQuantityCore
  rw [hr]
  rfl

theorem extractQuantity_range_upper_bound_witness :
    (extractQuantity ⟨"6".data ++ '-' :: ("8".data ++ " cups".data)⟩).map
      (fun q => q.quantity) = some ((digitsToNat "8".data : ℚ)) :=
  extractQuantity_range_upper_bound.2 "6".data "8".data " cups".data
    (by decide) (by decide) (by decide) (by decide) (by decide)
    (Or.inr ⟨by decide, by decide⟩)

/-! ### C2 -/

/-- C2: the combined line `"1 c. + 2 tbsp. butter"` parses to a single
record with base-unit-summed quantity 270 ml and `isCombined = true`; in
general, when a `+`-joined line yields at least two quantity+unit pairs all
of the same non-count unit type, `parseIngredientLine` emits one combined
record whose quantity is the base-unit sum and whose `originalPairs` lists
the original per-segment pairs. -/
theorem parseIngredientLine_combined :
    (parseIngredientLine "1 c. + 2 tbsp. butter" =
      some { quantity := 270, unit := some "ml", unitType := .volume,
             ingredient := "butter", notes := none,
             originalLine := "1 c. + 2 tbsp. butter", isCombined := true,
             originalPairs := [(1, "c."), (2, "tbsp.")] }) ∧
    (∀ (line firstPart : List Char) (restParts : List (List Char))
       (firstPair : QuantityUnitPair) (more : List QuantityUnitPair)
       (remText : List Char),
      trimChars line = line → line ≠ [] → isHeaderLine line = false →
      line.contains '+' = true →
      splitOnChar '+' line = firstPart :: restParts → restParts ≠ [] →
      parseQuantityUnitPair (trimChars firstPart) = some firstPair →
      collectPairs restParts (trimChars (joinChar '+' restParts)) =
        (more, remText) →
      more ≠ [] →
      (∀ p ∈ firstPair :: more, p.unitType = firstPair.unitType) →
      firstPair.unitType ≠ .count →
      ∃ r, parseIngredientLine ⟨line⟩ = some r ∧
        r.isCombined = true ∧
        r.quantity = ((firstPair :: more).map (fun p =>
          (convertToBaseUnit p.quantity (some p.unit) p.unitType).value)).sum ∧
        r.unitType = firstPair.unitType ∧
        r.unit = some (if firstPair.unitType = UnitType.volume
          then "ml" else "g") ∧
        r.originalPairs =
          (firstPair :: more).map (fun p => (p.quantity, p.unit))) := by
  constructor
  · decide
  · intro line firstPart restParts firstPair more remText
      htrim hlne hheader hplus hsplit hrp hfp hcollect hmne hall hnc
    obtain ⟨q, qs, rfl⟩ : ∃ x xs, restParts = x :: xs := by
      cases restParts with
      | nil => exact absurd rfl hrp
      | cons x xs => exact ⟨x, xs, rfl⟩
    obtain ⟨m0, ms, rfl⟩ : ∃ x xs, more = x :: xs := by
      cases more with
      | nil => exact absurd rfl hmne
      | cons x xs => exact ⟨x, xs, rfl⟩
    have hne' : line.isEmpty = false := by
      cases line with
      | nil => exact absurd rfl hlne
      | cons c t => rfl
    have hcond : (((firstPair :: m0 :: ms).all
          (fun p => p.unitType == firstPair.unitType) &&
          (firstPair.unitType != UnitType.count)) &&
        decide ((firstPair :: m0 :: ms).length > 1)) = true := by
      have h1 : (firstPair :: m0 :: ms).all
          (fun p => p.unitType == firstPair.unitType) = true :=
        List.all_eq_true.mpr (fun p hp => by simp [hall p hp])
      have h2 : (firstPair.unitType != UnitType.count) = true := by
        simp [hnc]
      have h3 : decide ((firstPair :: m0 :: ms).length > 1) = true := by
        simp only [List.length_cons, decide_eq_true_eq]
        omega
      rw [h1, h2, h3]
      rfl
    obtain ⟨ing, nts, hpc⟩ : ∃ ing nts, parseCombined line =
        some { quantity := ((firstPair :: m0 :: ms).map (fun p =>
                 (convertToBaseUnit p.quantity (some p.unit) p.unitType).value)).sum
               unit := some (if firstPair.unitType = UnitType.volume
                 then "ml" else "g")
               unitType := firstPair.unitType
               ingredient := ing
               notes := nts
               originalLine := ⟨line⟩
               isCombined := true
               originalPairs := (firstPair :: m0 :: ms).map
                 (fun p => (p.quantity, p.unit)) } := ⟨_, _, by
      unfold parseCombined
      rw [hsplit]
      dsimp only
      rw [hfp]
      dsimp only
      rw [hcollect]
      dsimp only
      rw [if_pos hcond]⟩
    have hparse : parseIngredientLine ⟨line⟩ =
        some { quantity := ((firstPair :: m0 :: ms).map (fun p =>
                 (convertToBaseUnit p.quantity (some p.unit) p.unitType).value)).sum
               unit := some (if firstPair.unitType = UnitType.volume
                 then "ml" else "g")
               unitType := firstPair.unitType
               ingredient := ing
               notes := nts
               originalLine := ⟨line⟩
               isCombined := true
               originalPairs := (firstPair :: m0 :: ms).map
                 (fun p => (p.quantity, p.unit)) } := by
      unfold parseIngredientLine
      dsimp only
      rw [htrim]
      rw [if_neg (show ¬ (line.isEmpty = true) by simp [hne'])]
      rw [if_neg (show ¬ (isHeaderLine line = true) by simp [hheader])]
      rw [hplus, if_pos rfl, hpc]
    exact ⟨_, hparse, rfl, rfl, rfl, rfl, rfl⟩

theorem parseIngredientLine_combined_witness :
    ∃ r, parseIngredientLine ⟨"1 c. + 2 tbsp. butter".data⟩ = some r ∧
      r.isCombined = true ∧ r.quantity = 270 ∧ r.unitType = .volume ∧
      r.unit = some "ml" ∧ r.originalPairs = [(1, "c."), (2, "tbsp.")] :=
  parseIngredientLine_combined.2 "1 c. + 2 tbsp. butter".data "1 c. ".data
    [" 2 tbsp. butter".data] ⟨1, "c.", .volume, []⟩
    [⟨2, "tbsp.", .volume, "butter".data⟩] "butter".data
    (by decide) (by decide) (by decide) (by decide) (by decide) (by decide)
    (by decide) (by decide) (by decide) (by decide) (by decide)

/-! ### C6 -/

/-- The Unicode fraction glyphs paired with the numerator and denominator of
the equivalent ASCII fraction. -/
def glyphFractionPairs : List (Char × Nat × Nat) :=
  [('½', 1, 2), ('⅓', 1, 3), ('⅔', 2, 3), ('¼', 1, 4), ('¾', 3, 4),
   ('⅕', 1, 5), ('⅖', 2, 5), ('⅗', 3, 5), ('⅘', 4, 5), ('⅙', 1, 6),
   ('⅚', 5, 6), ('⅛', 1, 8), ('⅜', 3, 8), ('⅝', 5, 8), ('⅞', 7, 8)]

theorem glyphFractionPairs_spec :
    ∀ x ∈ glyphFractionPairs,
      unicodeFractionToDecimal x.1 = some ((x.2.1 : ℚ) / (x.2.2 : ℚ)) ∧
      x.2.1 < x.2.2 ∧ x.2.2 ≠ 0 ∧
      (Nat.digitChar x.2.1).isDigit = true ∧
      (Nat.digitChar x.2.2).isDigit = true ∧
      digitsToNat [Nat.digitChar x.2.1] = x.2.1 ∧
      digitsToNat [Nat.digitChar x.2.2] = x.2.2 ∧
      x.1.isDigit = false ∧ isWs x.1 = false ∧ x.1 ≠ '-' := by decide

theorem unicodeFractionToDecimal_digit {c : Char} (h : c.isDigit = true) :
    unicodeFractionToDecimal c = none := by
  unfold unicodeFractionToDecimal
  cases hf : unicodeFractionTable.find? (fun p => p.1 == c) with
  | none => rfl
  | some p =>
    exfalso
    have hp := List.find?_some hf
    have hmem : p ∈ unicodeFractionTable := List.mem_of_find?_eq_some hf
    have hpc : p.1 = c := by simpa using hp
    have hd : ∀ q ∈ unicodeFractionTable, q.1.isDigit = false := by decide
    have hcd := hd p hmem
    rw [hpc, h] at hcd
    simp at hcd

/-- C6: `extractQuantity "1 1/2 cups"` and `extractQuantity "1½ cups"` both
return quantity 1.5; in general a mixed number written as digits, whitespace
and an ASCII proper fraction and the same mixed number written as the digits
immediately followed by the equivalent Unicode fraction glyph yield equal
quantities `whole + a/b`. -/
theorem extractQuantity_fraction_equiv :
    (extractQuantity "1 1/2 cups" = some ⟨3/2, 5⟩ ∧
     extractQuantity "1½ cups" = some ⟨3/2, 2⟩) ∧
    (∀ (ds : List Char) (g : Char) (a b : Nat) (rest : List Char),
      ds ≠ [] → (∀ c ∈ ds, c.isDigit = true) →
      (g, a, b) ∈ glyphFractionPairs →
      (rest = [] ∨ ((rest.headD ' ').isDigit = false ∧
        isWs (rest.getLastD ' ') = false)) →
      (extractQuantity
          ⟨ds ++ ' ' :: Nat.digitChar a :: '/' :: Nat.digitChar b :: rest⟩).map
        (fun q => q.quantity) =
          some ((digitsToNat ds : ℚ) + (a : ℚ) / (b : ℚ)) ∧
      (extractQuantity ⟨ds ++ g :: rest⟩).map (fun q => q.quantity) =
        some ((digitsToNat ds : ℚ) + (a : ℚ) / (b : ℚ))) := by
  refine ⟨⟨by decide, by decide⟩, ?_⟩
  intro ds g a b rest hne hds hg hrest
  obtain ⟨hgval, hab, hbne, hca, hcb, hva, hvb, hgnd, hgnw, hgdash⟩ :=
    glyphFractionPairs_spec _ hg
  dsimp only at hgval hab hbne hca hcb hva hvb hgnd hgnw hgdash
  obtain ⟨d0, dt, rfl⟩ : ∃ c t, ds = c :: t := by
    cases ds with
    | nil => exact absurd rfl hne
    | cons c t => exact ⟨c, t, rfl⟩
  have hrestSpan : spanP Char.isDigit rest = ([], rest) := by
    rcases hrest with rfl | ⟨hh, _⟩
    · rfl
    · cases rest with
      | nil => rfl
      | cons r0 rt =>
        simp only [List.headD_cons] at hh
        simp [spanP, hh]
  have hwsSpace : isWs ' ' = true := by decide
  have hcadash : ¬ (Nat.digitChar a = '-') := by
    intro hh
    rw [hh] at hca
    exact absurd hca (by decide)
  constructor
  · -- the ASCII mixed-number form
    have htriml : trimChars
        ((d0 :: dt) ++ ' ' :: Nat.digitChar a :: '/' :: Nat.digitChar b :: rest) =
        (d0 :: dt) ++ ' ' :: Nat.digitChar a :: '/' :: Nat.digitChar b :: rest := by
      apply trimChars_eq_self
      · right
        rw [headD_append_left _ (by simp)]
        exact isWs_of_digit (hds d0 (by simp))
      · right
        rw [getLastD_append_right (by simp) ' ']
        simp only [List.getLastD_cons]
        cases rest with
        | nil => exact isWs_of_digit hcb
        | cons r0 rt =>
          rcases hrest with h | ⟨_, hl⟩
          · exact absurd h (by simp)
          · rw [getLastD_irrel (by simp) _ ' ']
            exact hl
    have hwsp : spanP isWs
        (' ' :: Nat.digitChar a :: '/' :: Nat.digitChar b :: rest) =
        ([' '], Nat.digitChar a :: '/' :: Nat.digitChar b :: rest) := by
      simp [spanP, hwsSpace, isWs_of_digit hca]
    have hR : tryRange
        ((d0 :: dt) ++ ' ' :: Nat.digitChar a :: '/' :: Nat.digitChar b :: rest) =
        none := by
      unfold tryRange
      rw [spanP_append hds (by decide)]
      dsimp only
      rw [if_neg (by simp), hwsp]
      dsimp only
      rw [if_neg hcadash]
    have hMU : tryMixedUnicode
        ((d0 :: dt) ++ ' ' :: Nat.digitChar a :: '/' :: Nat.digitChar b :: rest) =
        none := by
      unfold tryMixedUnicode
      rw [spanP_append hds (by decide)]
      dsimp only
      rw [if_neg (by simp),
          show unicodeFractionToDecimal ' ' = none from by decide]
      rfl
    have hMUS : tryMixedUnicodeSpace
        ((d0 :: dt) ++ ' ' :: Nat.digitChar a :: '/' :: Nat.digitChar b :: rest) =
        none := by
      unfold tryMixedUnicodeSpace
      rw [spanP_append hds (by decide)]
      dsimp only
      rw [if_neg (by simp), hwsp]
      dsimp only
      rw [if_neg (by simp), unicodeFractionToDecimal_digit hca]
      rfl
    have hSU : tryStandaloneUnicode
        ((d0 :: dt) ++ ' ' :: Nat.digitChar a :: '/' :: Nat.digitChar b :: rest) =
        none := by
      rw [List.cons_append]
      unfold tryStandaloneUnicode
      dsimp only
      rw [unicodeFractionToDecimal_digit (hds d0 (by simp))]
    obtain ⟨n, hMA⟩ : ∃ n, tryMixedAscii
        ((d0 :: dt) ++ ' ' :: Nat.digitChar a :: '/' :: Nat.digitChar b :: rest) =
        some ⟨(digitsToNat (d0 :: dt) : ℚ) + (a : ℚ) / (b : ℚ), n⟩ := ⟨_, by
      unfold tryMixedAscii
      rw [spanP_append hds (by decide)]
      dsimp only
      rw [if_neg (by simp), hwsp]
      dsimp only
      rw [if_neg (by simp)]
      rw [show spanP Char.isDigit
          (Nat.digitChar a :: '/' :: Nat.digitChar b :: rest) =
          ([Nat.digitChar a], '/' :: Nat.digitChar b :: rest) from by
        simp [spanP, hca, show Char.isDigit '/' = false from by decide]]
      dsimp only
      rw [if_pos rfl]
      rw [show spanP Char.isDigit (Nat.digitChar b :: rest) =
          ([Nat.digitChar b], rest) from by
        simp [spanP, hcb, hrestSpan]]
      dsimp only
      rw [if_neg (by simp)]
      rw [if_pos (⟨by rw [hvb]; exact hbne, by rw [hva, hvb]; exact hab⟩ :
        digitsToNat [Nat.digitChar b] ≠ 0 ∧
        digitsToNat [Nat.digitChar a] < digitsToNat [Nat.digitChar b])]
      rw [hva, hvb, if_neg (by simp)]⟩
    show (extractQuantityCore (trimChars _)).map (fun q => q.quantity) = _
    rw [htriml]
    unfold extractQuantityCore
    rw [hR, hMU, hMUS, hSU, hMA]
    rfl
  · -- the Unicode-glyph form
    have htrimu : trimChars ((d0 :: dt) ++ g :: rest) =
        (d0 :: dt) ++ g :: rest := by
      apply trimChars_eq_self
      · right
        rw [headD_append_left _ (by simp)]
        exact isWs_of_digit (hds d0 (by simp))
      · right
        rw [getLastD_append_right (by simp) ' ', List.getLastD_cons]
        cases rest with
        | nil => exact hgnw
        | cons r0 rt =>
          rcases hrest with h | ⟨_, hl⟩
          · exact absurd h (by simp)
          · rw [getLastD_irrel (by simp) _ ' ']
            exact hl
    have hRu : tryRange ((d0 :: dt) ++ g :: rest) = none := by
      unfold tryRange
      rw [spanP_append hds hgnd]
      dsimp only
      rw [if_neg (by simp),
          show spanP isWs (g :: rest) = ([], g :: rest) from by
            simp [spanP, hgnw]]
      dsimp only
      rw [if_neg hgdash]
    obtain ⟨n, hMUu⟩ : ∃ n, tryMixedUnicode ((d0 :: dt) ++ g :: rest) =
        some ⟨(digitsToNat (d0 :: dt) : ℚ) + (a : ℚ) / (b : ℚ), n⟩ := ⟨_, by
      unfold tryMixedUnicode
      rw [spanP_append hds hgnd]
      dsimp only
      rw [if_neg (by simp), hgval]
      rfl⟩
    show (extractQuantityCore (trimChars _)).map (fun q => q.quantity) = _
    rw [htrimu]
    unfold extractQuantityCore
    rw [hRu, hMUu]
    rfl

theorem extractQuantity_fraction_equiv_witness :
    (extractQuantity
        ⟨"1".data ++ ' ' :: Nat.digitChar 1 :: '/' :: Nat.digitChar 2 :: " cups".data⟩).map
      (fun q => q.quantity) = some ((digitsToNat "1".data : ℚ) + (1 : ℚ) / 2) ∧
    (extractQuantity ⟨"1".data ++ '½' :: " cups".data⟩).map (fun q => q.quantity) =
      some ((digitsToNat "1".data : ℚ) + (1 : ℚ) / 2) :=
  extractQuantity_fraction_equiv.2 "1".data '½' 1 2 " cups".data
    (by decide) (by decide) (by decide) (Or.inr ⟨by decide, by decide⟩)

end RecipeConsolidator
